import Mathlib

/-!
Verification of the dataset-generation script `src/bin/create_data.py` of the
MLlab repository.

The script draws samples from the process-wide `random` module, which is
seeded once per invocation (`random.seed(1337)`) and then consumed strictly
sequentially.  We model that source as an abstract deterministic stream of
rational draws together with a position counter: each primitive call of the
`random` module consumes exactly one entry of the stream.  The pseudo-random
stream produced by Mersenne Twister for seed 1337 is some fixed stream; all
theorems below quantify over the stream (restricted, where needed, to
well-formed streams whose entries lie in `[0, 1)`).

Python floats are modelled as exact rationals, and `round(x, n)` as rounding
half-to-even at `n` decimal digits.  `math.sqrt(a) < c` comparisons are
modelled by the equivalent rational test `a < c ^ 2` (the bridge to
`Real.sqrt` is proved in `sqrtlt_iff`).
-/

namespace CreateData

/-- Rounding half to even of a rational to an integer, as Python `round`
does at the integer level. -/
def rndHalfEven (q : ℚ) : ℤ :=
  let f := Rat.floor q
  let r := q - f
  if r < 1 / 2 then f
  else if 1 / 2 < r then f + 1
  else if f % 2 = 0 then f else f + 1

/-- Python `round(q, n)`: round to `n` decimal digits, ties to even. -/
def pyround (q : ℚ) (n : ℕ) : ℚ := (rndHalfEven (q * 10 ^ n) : ℚ) / 10 ^ n

/-- The state of the process-wide random source: an abstract stream of
rational draws and the number of primitive calls already made.  Seeding with
a fixed seed fixes `vals`; consuming advances `pos`. -/
structure RNG where
  vals : ℕ → ℚ
  pos : ℕ

/-- A well-formed stream yields unit-interval draws. -/
def RNG.wf (g : RNG) : Prop := ∀ n, 0 ≤ g.vals n ∧ g.vals n < 1

/-- `random.random()`: consume one draw and return it (a float in `[0, 1)`
for well-formed streams). -/
def RNG.rand (g : RNG) : ℚ × RNG := (g.vals g.pos, ⟨g.vals, g.pos + 1⟩)

/-- `random.randint(0, 1)`: consume one draw and return an integer in
`{0, 1}` (modelled from the documented contract of the Python library:
the draw selects one of the two values). -/
def RNG.randint01 (g : RNG) : ℤ × RNG :=
  (if g.vals g.pos < 1 / 2 then 0 else 1, ⟨g.vals, g.pos + 1⟩)

/-- `random.gauss(mu, sigma)`: consume one draw `z` (standing for the
standard normal deviate) and return `mu + sigma * z`. -/
def RNG.gauss (g : RNG) (mu sigma : ℚ) : ℚ × RNG :=
  (mu + sigma * g.vals g.pos, ⟨g.vals, g.pos + 1⟩)

/-- The single error kind of the script: the `NotImplementedError` raised by
the final `else` of both generators, called UnsupportedStrategy by the spec. -/
inductive GenError where
  | UnsupportedStrategy
deriving DecidableEq, Repr

/-- Boolean model of the comparison `math.sqrt a < c` of the source, decided
on rationals; for `0 ≤ a` and `0 < c` it matches `Real.sqrt a < c`
(lemma `sqrtlt_iff`). -/
def sqrtlt (a c : ℚ) : Bool := decide (a < c ^ 2)

/-- The strategy chain of `generate_clf_point` (lines 29-87 of
`src/bin/create_data.py`): feature draws and the label rule, before the
final rounding.  The initial defaults `label = 0`, `x = [0, 0]` of the
source are overwritten in every supported branch and are dropped here; the
final `else` raises. -/
def clfBranch (strategy : String) (g : RNG) :
    Except GenError ((List ℚ × ℤ) × RNG) :=
  if strategy = "halfs" then
    let (label, g) := g.randint01
    let (r0, g) := g.rand
    let x0 : ℚ := if label = 0 then -r0 else r0
    let (r1, g) := g.rand
    let x1 : ℚ := 2 * r1 - 1
    .ok (([x0, x1], label), g)
  else if strategy = "quarters" then
    let (r0, g) := g.rand
    let x0 : ℚ := 2 * r0 - 1
    let (r1, g) := g.rand
    let x1 : ℚ := 2 * r1 - 1
    .ok (([x0, x1], if x0 * x1 > 0 then 0 else 1), g)
  else if strategy = "diagonal" then
    let (r0, g) := g.rand
    let x0 : ℚ := 2 * r0 - 1
    let (r1, g) := g.rand
    let x1 : ℚ := 2 * r1 - 1
    .ok (([x0, x1], if x0 - x1 > 0 then 0 else 1), g)
  else if strategy = "shifteddiagonal" then
    let (r0, g) := g.rand
    let x0 : ℚ := 2 * r0 - 1
    let (r1, g) := g.rand
    let x1 : ℚ := 2 * r1 - 1
    .ok (([x0, x1], if x0 - x1 + 0.5 > 0 then 0 else 1), g)
  else if strategy = "circle" then
    let (r0, g) := g.rand
    let x0 : ℚ := 2 * r0 - 1
    let (r1, g) := g.rand
    let x1 : ℚ := 2 * r1 - 1
    .ok (([x0, x1], if sqrtlt (x0 ^ 2 + x1 ^ 2) 0.5 then 1 else 0), g)
  else if strategy = "ellipse" then
    let (r0, g) := g.rand
    let x0 : ℚ := 2 * r0 - 1
    let (r1, g) := g.rand
    let x1 : ℚ := 2 * r1 - 1
    let x0Center : ℚ := x0 - 0.2
    let x1Center : ℚ := x1 + 0.3
    let rx0 : ℚ := 0.75
    let rx1 : ℚ := 0.5
    .ok (([x0, x1],
      if sqrtlt ((x0Center / rx0) ^ 2 + (x1Center / rx1) ^ 2) 1 then 1 else 0), g)
  else if strategy = "circles" then
    let (r0, g) := g.rand
    let x0 : ℚ := 2 * r0 - 1
    let (r1, g) := g.rand
    let x1 : ℚ := 2 * r1 - 1
    let d : ℚ := 0.5
    let r : ℚ := 0.25
    let partOfCircle : Bool :=
      sqrtlt ((x0 - d) ^ 2 + (x1 - d) ^ 2) r ||
      sqrtlt ((x0 + d) ^ 2 + (x1 + d) ^ 2) r ||
      sqrtlt ((x0 - d) ^ 2 + (x1 + d) ^ 2) r ||
      sqrtlt ((x0 + d) ^ 2 + (x1 - d) ^ 2) r
    .ok (([x0, x1], if partOfCircle then 1 else 0), g)
  else if strategy = "bernoulli" then
    let (b0, g) := g.randint01
    let (b1, g) := g.randint01
    let (b2, g) := g.randint01
    let (b3, g) := g.randint01
    let (b4, g) := g.randint01
    .ok ((([b0, b1, b2, b3, b4] : List ℤ).map (fun b => (b : ℚ)),
      if b0 + b1 + b2 + b3 + b4 > 2 then 1 else 0), g)
  else
    .error .UnsupportedStrategy

/-- One iteration of the generator body of `generate_clf_point`
(lines 29-87): run the strategy branch, then round every feature to 2
decimal digits and yield `(x, label)`. -/
def generate_clf_point (strategy : String) (g : RNG) :
    Except GenError ((List ℚ × ℤ) × RNG) :=
  match clfBranch strategy g with
  | .error e => .error e
  | .ok ((x, label), g) => .ok ((x.map (fun xs => pyround xs 2), label), g)

/-- The strategy chain of `generate_reg_point` (lines 90-119): feature draws
and the polynomial target, before noise and rounding.  Branches appear in
source order. -/
def regBranch (strategy : String) (g : RNG) :
    Except GenError ((List ℚ × ℚ) × RNG) :=
  if strategy = "linear" then
    let (r0, g) := g.rand
    let x0 : ℚ := 2 * r0 - 1
    .ok (([x0], 2 * x0 - 1), g)
  else if strategy = "twodimlinear" then
    let (r0, g) := g.rand
    let x0 : ℚ := 2 * r0 - 1
    let (r1, g) := g.rand
    let x1 : ℚ := 2 * r1 - 1
    .ok (([x0, x1], 2 * x0 + 1 * x1 - 1), g)
  else if strategy = "multidimlinear" then
    let (r0, g) := g.rand
    let x0 : ℚ := 2 * r0 - 1
    let (r1, g) := g.rand
    let x1 : ℚ := 2 * r1 - 1
    let (r2, g) := g.rand
    let x2 : ℚ := 2 * r2 - 1
    let (r3, g) := g.rand
    let x3 : ℚ := 2 * r3 - 1
    .ok (([x0, x1, x2, x3], 2 * x0 + 1 * x1 + 10 * x2 - 5 * x3 - 1), g)
  else if strategy = "quadratic" then
    let (r0, g) := g.rand
    let x0 : ℚ := 2 * r0 - 1
    .ok (([x0], 2 * x0 ^ 2 + 1 * x0 - 1), g)
  else if strategy = "twodimcubic" then
    let (r0, g) := g.rand
    let x0 : ℚ := 2 * r0 - 1
    let (r1, g) := g.rand
    let x1 : ℚ := 2 * r1 - 1
    .ok (([x0, x1],
      -x0 ^ 3 + 2 * x1 ^ 3 + 2 * x0 ^ 2 - 3 * x1 ^ 2 + 1 * x0 - 2 * x1 - 1), g)
  else if strategy = "twodimquadratic" then
    let (r0, g) := g.rand
    let x0 : ℚ := 2 * r0 - 1
    let (r1, g) := g.rand
    let x1 : ℚ := 2 * r1 - 1
    .ok (([x0, x1],
      2 * x0 ^ 2 - 3 * x1 ^ 2 + 4 * x0 * x1 + 1 * x0 - 2 * x1 - 1), g)
  else if strategy = "cubic" then
    let (r0, g) := g.rand
    let x0 : ℚ := 2 * r0 - 1
    .ok (([x0], -2 * x0 ^ 3 + 2 * x0 ^ 2 + 1 * x0 - 1), g)
  else
    .error .UnsupportedStrategy

/-- One iteration of the generator body of `generate_reg_point`
(lines 90-127): run the strategy branch, add one Gaussian noise draw
(`mu = 0`, `sigma = 0.3`), round features and target to 3 decimal digits
and yield `(x, y)`. -/
def generate_reg_point (strategy : String) (g : RNG) :
    Except GenError ((List ℚ × ℚ) × RNG) :=
  match regBranch strategy g with
  | .error e => .error e
  | .ok ((x, y), g) =>
    let (noise, g) := g.gauss 0 0.3
    let y := y + noise
    .ok ((x.map (fun xs => pyround xs 3), pyround y 3), g)

/-- The classification strategy identifiers accepted by the argument parser
(`--clf` choices), in source order. -/
def clfStrategies : List String :=
  ["halfs", "quarters", "diagonal", "circle", "ellipse", "circles",
   "shifteddiagonal", "bernoulli"]

/-- The regression strategy identifiers accepted by the argument parser
(`--reg` choices), in source order. -/
def regStrategies : List String :=
  ["linear", "twodimlinear", "multidimlinear", "quadratic",
   "twodimquadratic", "cubic", "twodimcubic"]

/-- `nInstances = 1000` of the driver loops. -/
def nInstances : ℕ := 1000

/-- Content of a classification output file: the header line and the indexed
sample rows, in order.  The textual row rendering is an injective image of
this structure, so two files are byte-identical exactly when these contents
are equal. -/
structure ClfFile where
  header : String
  rows : List (ℕ × (List ℚ × ℤ))
deriving DecidableEq

/-- Content of a regression output file. -/
structure RegFile where
  header : String
  rows : List (ℕ × (List ℚ × ℚ))
deriving DecidableEq

/-- `n` successive pulls of a generator step function, each pull made the
way the driver makes it: `next(generate_..._point(strategy))` on a freshly
instantiated generator, all state living in the shared random source. -/
def pulls {α : Type} (step : RNG → Except GenError (α × RNG)) :
    ℕ → RNG → Except GenError (List α × RNG)
  | 0, g => .ok ([], g)
  | n + 1, g =>
    match step g with
    | .error e => .error e
    | .ok (x, g1) =>
      match pulls step n g1 with
      | .error e => .error e
      | .ok (l, g2) => .ok (x :: l, g2)

/-- The sample of index `n` when one single generator object is kept alive
and pulled repeatedly: the lazy-sequence view of the generator. -/
def seqAt {α : Type} (step : RNG → Except GenError (α × RNG)) :
    ℕ → RNG → Except GenError (α × RNG)
  | 0, g => step g
  | n + 1, g =>
    match seqAt step n g with
    | .error e => .error e
    | .ok (_, g1) => step g1

/-- One classification split (lines 134-146 of the driver): print one
Example sample to stdout, then write the header and `nInstances` indexed
rows.  The Example pull consumes the random source before the file loop. -/
def clfSplit (strategy : String) (g : RNG) : Except GenError (ClfFile × RNG) :=
  match generate_clf_point strategy g with
  | .error e => .error e
  | .ok (_, g1) =>
    match pulls (generate_clf_point strategy) nInstances g1 with
    | .error e => .error e
    | .ok (l, g2) =>
      .ok ({ header := "Index X Y Type", rows := (List.range nInstances).zip l }, g2)

/-- One regression split (lines 152-164 of the driver). -/
def regSplit (strategy : String) (g : RNG) : Except GenError (RegFile × RNG) :=
  match generate_reg_point strategy g with
  | .error e => .error e
  | .ok (_, g1) =>
    match pulls (generate_reg_point strategy) nInstances g1 with
    | .error e => .error e
    | .ok (l, g2) =>
      .ok ({ header := "Index X Y", rows := (List.range nInstances).zip l }, g2)

/-- The classification run (lines 130-146): seed once (the seeded stream is
the `RNG` argument at position 0), then produce the train and test splits
sequentially from the same stream.  Returns the files created, in creation
order, and the error aborting the run, if any: an error in a split occurs at
its Example pull, before that split opens its file. -/
def runClf (strategy : String) (g : RNG) :
    List (String × ClfFile) × Option GenError :=
  match clfSplit strategy g with
  | .error e => ([], some e)
  | .ok (ftrain, g1) =>
    match clfSplit strategy g1 with
    | .error e => ([("clf_train.csv", ftrain)], some e)
    | .ok (ftest, _) =>
      ([("clf_train.csv", ftrain), ("clf_test.csv", ftest)], none)

/-- The regression run (lines 148-164). -/
def runReg (strategy : String) (g : RNG) :
    List (String × RegFile) × Option GenError :=
  match regSplit strategy g with
  | .error e => ([], some e)
  | .ok (ftrain, g1) =>
    match regSplit strategy g1 with
    | .error e => ([("reg_train.csv", ftrain)], some e)
    | .ok (ftest, _) =>
      ([("reg_train.csv", ftrain), ("reg_test.csv", ftest)], none)

/-- The sample yielded by one classification pull, without the source state:
a decidable view used in concrete statements. -/
def clfOut (strategy : String) (g : RNG) : Option (List ℚ × ℤ) :=
  (generate_clf_point strategy g).toOption.map Prod.fst

/-- The sample yielded by one regression pull, without the source state. -/
def regOut (strategy : String) (g : RNG) : Option (List ℚ × ℚ) :=
  (generate_reg_point strategy g).toOption.map Prod.fst

/-- A concrete well-formed stream: every draw is `0`. -/
def zeroRNG : RNG := ⟨fun _ => 0, 0⟩

/-- A concrete well-formed stream whose draws change value after index 999:
the train split of a run reads only indices below 1000, the test split only
indices from 1000 on. -/
def twoPhaseRNG : RNG := ⟨fun n => if n < 1000 then 0 else 1 / 2, 0⟩

/-- A concrete well-formed stream sending the unrounded `circle` point to
`(0.496, 0.06)`, whose distance to the origin is below `0.5` while the
distance of the rounded point `(0.5, 0.06)` is not. -/
def nearCircleRNG : RNG := ⟨fun n => if n = 0 then 748 / 1000 else 53 / 100, 0⟩

/-- A concrete well-formed stream with zero Gaussian draw sending the
unrounded `linear` feature to `0.0004`, which rounds to `0` while the exact
target `2 * 0.0004 - 1 = -0.9992` rounds to `-0.999 ≠ 2 * 0 - 1`. -/
def nearLinearRNG : RNG := ⟨fun n => if n = 0 then 5002 / 10000 else 0, 0⟩

/-- The sample produced by one `circle` pull whose first draw sits at stream
index `q`: the unfolded `circle` branch, used to give `pulls` a closed form. -/
def circleSample (v : ℕ → ℚ) (q : ℕ) : List ℚ × ℤ :=
  ([pyround (2 * v q - 1) 2, pyround (2 * v (q + 1) - 1) 2],
   if sqrtlt ((2 * v q - 1) ^ 2 + (2 * v (q + 1) - 1) ^ 2) 0.5 then 1 else 0)

/-- Agreement of two pull outcomes across different streams: the same error,
or the same payload at the same stream position. -/
def StepRel {α : Type} (a b : Except GenError (α × RNG)) : Prop :=
  match a, b with
  | .error e, .error e' => e = e'
  | .ok (x, g), .ok (x', g') => x = x' ∧ g.pos = g'.pos
  | _, _ => False

section Rounding

/-- Batteries `Rat.floor` agrees with the floor of the archimedean order
structure. -/
theorem ratFloor_eq_floor (q : ℚ) : Rat.floor q = ⌊q⌋ := by
  rw [Rat.floor_def, Rat.floor_def']

/-- `rndHalfEven` written with `⌊·⌋`. -/
theorem rndHalfEven_eq (q : ℚ) :
    rndHalfEven q =
      if q - (⌊q⌋ : ℚ) < 1 / 2 then ⌊q⌋
      else if 1 / 2 < q - (⌊q⌋ : ℚ) then ⌊q⌋ + 1
      else if ⌊q⌋ % 2 = 0 then ⌊q⌋ else ⌊q⌋ + 1 := by
  simp only [rndHalfEven, ratFloor_eq_floor]

/-- `rndHalfEven` is the floor or its successor, and which one it is
constrains the fractional part. -/
theorem rndHalfEven_cases (q : ℚ) :
    (rndHalfEven q = ⌊q⌋ ∧ q - (⌊q⌋ : ℚ) ≤ 1 / 2) ∨
    (rndHalfEven q = ⌊q⌋ + 1 ∧ 1 / 2 ≤ q - (⌊q⌋ : ℚ)) := by
  rw [rndHalfEven_eq]
  split_ifs with h1 h2 h3
  · exact Or.inl ⟨rfl, le_of_lt h1⟩
  · exact Or.inr ⟨rfl, le_of_lt h2⟩
  · exact Or.inl ⟨rfl, not_lt.mp h2⟩
  · exact Or.inr ⟨rfl, not_lt.mp h1⟩

theorem rndHalfEven_le {q : ℚ} {a : ℤ} (h : q ≤ (a : ℚ)) : rndHalfEven q ≤ a := by
  have hfa : ⌊q⌋ ≤ a := by
    have := Int.floor_mono h
    rwa [Int.floor_intCast] at this
  rcases rndHalfEven_cases q with ⟨he, _⟩ | ⟨he, hr⟩
  · omega
  · have hlt : (⌊q⌋ : ℚ) < (a : ℚ) := by
      have : (⌊q⌋ : ℚ) + 1 / 2 ≤ q := by linarith
      linarith
    have : ⌊q⌋ < a := by exact_mod_cast hlt
    omega

theorem le_rndHalfEven {q : ℚ} {a : ℤ} (h : (a : ℚ) ≤ q) : a ≤ rndHalfEven q := by
  have hfa : a ≤ ⌊q⌋ := Int.le_floor.mpr h
  rcases rndHalfEven_cases q with ⟨he, _⟩ | ⟨he, _⟩ <;> omega

theorem abs_rndHalfEven_sub (q : ℚ) : |(rndHalfEven q : ℚ) - q| ≤ 1 / 2 := by
  have h0 : (⌊q⌋ : ℚ) ≤ q := Int.floor_le q
  have h1 : q < (⌊q⌋ : ℚ) + 1 := Int.lt_floor_add_one q
  rcases rndHalfEven_cases q with ⟨he, hr⟩ | ⟨he, hr⟩ <;>
    rw [he] <;> rw [abs_le] <;> push_cast <;> constructor <;> linarith

theorem pyround_le {q : ℚ} {a : ℤ} {n : ℕ} (h : q ≤ (a : ℚ)) :
    pyround q n ≤ (a : ℚ) := by
  have h10 : (0 : ℚ) < 10 ^ n := by positivity
  have hb : q * 10 ^ n ≤ ((a * 10 ^ n : ℤ) : ℚ) := by
    push_cast
    exact mul_le_mul_of_nonneg_right h h10.le
  have := rndHalfEven_le hb
  rw [pyround, div_le_iff₀ h10]
  exact_mod_cast this

theorem le_pyround {q : ℚ} {a : ℤ} {n : ℕ} (h : (a : ℚ) ≤ q) :
    (a : ℚ) ≤ pyround q n := by
  have h10 : (0 : ℚ) < 10 ^ n := by positivity
  have hb : ((a * 10 ^ n : ℤ) : ℚ) ≤ q * 10 ^ n := by
    push_cast
    exact mul_le_mul_of_nonneg_right h h10.le
  have := le_rndHalfEven hb
  rw [pyround, le_div_iff₀ h10]
  exact_mod_cast this

theorem abs_pyround_sub (q : ℚ) (n : ℕ) :
    |pyround q n - q| ≤ 1 / (2 * 10 ^ n) := by
  have h10 : (0 : ℚ) < 10 ^ n := by positivity
  have habs : |(rndHalfEven (q * 10 ^ n) : ℚ) - q * 10 ^ n| ≤ 1 / 2 :=
    abs_rndHalfEven_sub _
  have hrw : pyround q n - q = ((rndHalfEven (q * 10 ^ n) : ℚ) - q * 10 ^ n) / 10 ^ n := by
    rw [pyround]
    field_simp
    ring
  rw [hrw, abs_div, abs_of_pos h10, div_le_iff₀ h10]
  calc |(rndHalfEven (q * 10 ^ n) : ℚ) - q * 10 ^ n| ≤ 1 / 2 := habs
    _ = 1 / (2 * 10 ^ n) * 10 ^ n := by field_simp

/-- Every rounded value has exactly `n` decimal digits: it is an integer
multiple of `10 ^ (-n)`. -/
theorem pyround_eq_int_div (q : ℚ) (n : ℕ) :
    ∃ m : ℤ, pyround q n = (m : ℚ) / 10 ^ n :=
  ⟨rndHalfEven (q * 10 ^ n), rfl⟩

theorem rndHalfEven_intCast (a : ℤ) : rndHalfEven ((a : ℚ)) = a := by
  rw [rndHalfEven_eq, Int.floor_intCast]
  norm_num

/-- Rounding fixes integers, whatever the digit count. -/
theorem pyround_intCast (b : ℤ) (n : ℕ) : pyround (b : ℚ) n = (b : ℚ) := by
  have h10 : (0 : ℚ) < 10 ^ n := by positivity
  have hc : (b : ℚ) * 10 ^ n = ((b * 10 ^ n : ℤ) : ℚ) := by push_cast; ring
  rw [pyround, hc, rndHalfEven_intCast]
  push_cast
  field_simp


theorem pyround_in_unit {t : ℚ} (n : ℕ) (h0 : -1 ≤ t) (h1 : t ≤ 1) :
    -1 ≤ pyround t n ∧ pyround t n ≤ 1 := by
  constructor
  · have h := le_pyround (a := -1) (n := n) (q := t) (by push_cast; linarith)
    exact_mod_cast h
  · have h := pyround_le (a := 1) (n := n) (q := t) (by push_cast; linarith)
    exact_mod_cast h

theorem pyround_in_01 {t : ℚ} (n : ℕ) (h0 : 0 ≤ t) (h1 : t ≤ 1) :
    0 ≤ pyround t n ∧ pyround t n ≤ 1 := by
  constructor
  · have h := le_pyround (a := 0) (n := n) (q := t) (by push_cast; linarith)
    exact_mod_cast h
  · have h := pyround_le (a := 1) (n := n) (q := t) (by push_cast; linarith)
    exact_mod_cast h

theorem pyround_in_neg {t : ℚ} (n : ℕ) (h0 : -1 ≤ t) (h1 : t ≤ 0) :
    -1 ≤ pyround t n ∧ pyround t n ≤ 0 := by
  constructor
  · have h := le_pyround (a := -1) (n := n) (q := t) (by push_cast; linarith)
    exact_mod_cast h
  · have h := pyround_le (a := 0) (n := n) (q := t) (by push_cast; linarith)
    exact_mod_cast h

end Rounding

section SqrtBridge

/-- The rational test `sqrtlt` decides the comparison `math.sqrt a < c` of
the source. -/
theorem sqrtlt_iff {a c : ℚ} (hc : 0 < c) :
    sqrtlt a c = true ↔ Real.sqrt (a : ℝ) < (c : ℝ) := by
  have hc' : (0 : ℝ) < (c : ℝ) := by exact_mod_cast hc
  rw [sqrtlt, decide_eq_true_eq, Real.sqrt_lt' hc']
  constructor <;> intro h <;> exact_mod_cast h

end SqrtBridge

section ShapeLemmas

/-- Unfolding of one `halfs` pull: one `randint` draw for the label, one
`random` draw for `x0` (negated when the label is 0), one for `x1`. -/
theorem clf_halfs_eq (v : ℕ → ℚ) (p : ℕ) :
    generate_clf_point "halfs" ⟨v, p⟩ =
      .ok (([pyround (if (if v p < 1 / 2 then (0 : ℤ) else 1) = 0
                then -(v (p + 1)) else v (p + 1)) 2,
             pyround (2 * v (p + 2) - 1) 2],
            if v p < 1 / 2 then (0 : ℤ) else 1), ⟨v, p + 3⟩) := rfl

/-- Unfolding of one `quarters` pull. -/
theorem clf_quarters_eq (v : ℕ → ℚ) (p : ℕ) :
    generate_clf_point "quarters" ⟨v, p⟩ =
      .ok (([pyround (2 * v p - 1) 2, pyround (2 * v (p + 1) - 1) 2],
            if (2 * v p - 1) * (2 * v (p + 1) - 1) > 0 then (0 : ℤ) else 1),
        ⟨v, p + 2⟩) := rfl

/-- Unfolding of one `diagonal` pull. -/
theorem clf_diagonal_eq (v : ℕ → ℚ) (p : ℕ) :
    generate_clf_point "diagonal" ⟨v, p⟩ =
      .ok (([pyround (2 * v p - 1) 2, pyround (2 * v (p + 1) - 1) 2],
            if (2 * v p - 1) - (2 * v (p + 1) - 1) > 0 then (0 : ℤ) else 1),
        ⟨v, p + 2⟩) := rfl

/-- Unfolding of one `shifteddiagonal` pull. -/
theorem clf_shifteddiagonal_eq (v : ℕ → ℚ) (p : ℕ) :
    generate_clf_point "shifteddiagonal" ⟨v, p⟩ =
      .ok (([pyround (2 * v p - 1) 2, pyround (2 * v (p + 1) - 1) 2],
            if (2 * v p - 1) - (2 * v (p + 1) - 1) + 0.5 > 0 then (0 : ℤ) else 1),
        ⟨v, p + 2⟩) := rfl

/-- Unfolding of one `circle` pull: the label tests the unrounded point, the
yielded features are rounded. -/
theorem clf_circle_eq (v : ℕ → ℚ) (p : ℕ) :
    generate_clf_point "circle" ⟨v, p⟩ =
      .ok (([pyround (2 * v p - 1) 2, pyround (2 * v (p + 1) - 1) 2],
            if sqrtlt ((2 * v p - 1) ^ 2 + (2 * v (p + 1) - 1) ^ 2) 0.5
              then (1 : ℤ) else 0),
        ⟨v, p + 2⟩) := rfl

/-- Unfolding of one `ellipse` pull. -/
theorem clf_ellipse_eq (v : ℕ → ℚ) (p : ℕ) :
    generate_clf_point "ellipse" ⟨v, p⟩ =
      .ok (([pyround (2 * v p - 1) 2, pyround (2 * v (p + 1) - 1) 2],
            if sqrtlt (((2 * v p - 1 - 0.2) / 0.75) ^ 2 +
                ((2 * v (p + 1) - 1 + 0.3) / 0.5) ^ 2) 1
              then (1 : ℤ) else 0),
        ⟨v, p + 2⟩) := rfl

/-- Unfolding of one `circles` pull. -/
theorem clf_circles_eq (v : ℕ → ℚ) (p : ℕ) :
    generate_clf_point "circles" ⟨v, p⟩ =
      .ok (([pyround (2 * v p - 1) 2, pyround (2 * v (p + 1) - 1) 2],
            if sqrtlt ((2 * v p - 1 - 0.5) ^ 2 + (2 * v (p + 1) - 1 - 0.5) ^ 2) 0.25 ||
               sqrtlt ((2 * v p - 1 + 0.5) ^ 2 + (2 * v (p + 1) - 1 + 0.5) ^ 2) 0.25 ||
               sqrtlt ((2 * v p - 1 - 0.5) ^ 2 + (2 * v (p + 1) - 1 + 0.5) ^ 2) 0.25 ||
               sqrtlt ((2 * v p - 1 + 0.5) ^ 2 + (2 * v (p + 1) - 1 - 0.5) ^ 2) 0.25
              then (1 : ℤ) else 0),
        ⟨v, p + 2⟩) := rfl

/-- Unfolding of one `bernoulli` pull: five `randint` draws. -/
theorem clf_bernoulli_eq (v : ℕ → ℚ) (p : ℕ) :
    generate_clf_point "bernoulli" ⟨v, p⟩ =
      .ok (([pyround (Int.cast (if v p < 1 / 2 then (0 : ℤ) else 1)) 2,
             pyround (Int.cast (if v (p + 1) < 1 / 2 then (0 : ℤ) else 1)) 2,
             pyround (Int.cast (if v (p + 2) < 1 / 2 then (0 : ℤ) else 1)) 2,
             pyround (Int.cast (if v (p + 3) < 1 / 2 then (0 : ℤ) else 1)) 2,
             pyround (Int.cast (if v (p + 4) < 1 / 2 then (0 : ℤ) else 1)) 2],
            if (if v p < 1 / 2 then (0 : ℤ) else 1) +
               (if v (p + 1) < 1 / 2 then (0 : ℤ) else 1) +
               (if v (p + 2) < 1 / 2 then (0 : ℤ) else 1) +
               (if v (p + 3) < 1 / 2 then (0 : ℤ) else 1) +
               (if v (p + 4) < 1 / 2 then (0 : ℤ) else 1) > 2
              then (1 : ℤ) else 0),
        ⟨v, p + 5⟩) := rfl

/-- Unfolding of one `linear` pull: one feature draw, the exact target
`2 x - 1`, one Gaussian draw added, then the roundings. -/
theorem reg_linear_eq (v : ℕ → ℚ) (p : ℕ) :
    generate_reg_point "linear" ⟨v, p⟩ =
      .ok (([pyround (2 * v p - 1) 3],
            pyround (2 * (2 * v p - 1) - 1 + (0 + 0.3 * v (p + 1))) 3),
        ⟨v, p + 2⟩) := rfl

/-- Unfolding of one `twodimlinear` pull. -/
theorem reg_twodimlinear_eq (v : ℕ → ℚ) (p : ℕ) :
    generate_reg_point "twodimlinear" ⟨v, p⟩ =
      .ok (([pyround (2 * v p - 1) 3, pyround (2 * v (p + 1) - 1) 3],
            pyround (2 * (2 * v p - 1) + 1 * (2 * v (p + 1) - 1) - 1 +
              (0 + 0.3 * v (p + 2))) 3),
        ⟨v, p + 3⟩) := rfl

/-- Unfolding of one `multidimlinear` pull. -/
theorem reg_multidimlinear_eq (v : ℕ → ℚ) (p : ℕ) :
    generate_reg_point "multidimlinear" ⟨v, p⟩ =
      .ok (([pyround (2 * v p - 1) 3, pyround (2 * v (p + 1) - 1) 3,
             pyround (2 * v (p + 2) - 1) 3, pyround (2 * v (p + 3) - 1) 3],
            pyround (2 * (2 * v p - 1) + 1 * (2 * v (p + 1) - 1) +
              10 * (2 * v (p + 2) - 1) - 5 * (2 * v (p + 3) - 1) - 1 +
              (0 + 0.3 * v (p + 4))) 3),
        ⟨v, p + 5⟩) := rfl

/-- Unfolding of one `quadratic` pull. -/
theorem reg_quadratic_eq (v : ℕ → ℚ) (p : ℕ) :
    generate_reg_point "quadratic" ⟨v, p⟩ =
      .ok (([pyround (2 * v p - 1) 3],
            pyround (2 * (2 * v p - 1) ^ 2 + 1 * (2 * v p - 1) - 1 +
              (0 + 0.3 * v (p + 1))) 3),
        ⟨v, p + 2⟩) := rfl

/-- Unfolding of one `twodimcubic` pull. -/
theorem reg_twodimcubic_eq (v : ℕ → ℚ) (p : ℕ) :
    generate_reg_point "twodimcubic" ⟨v, p⟩ =
      .ok (([pyround (2 * v p - 1) 3, pyround (2 * v (p + 1) - 1) 3],
            pyround (-(2 * v p - 1) ^ 3 + 2 * (2 * v (p + 1) - 1) ^ 3 +
              2 * (2 * v p - 1) ^ 2 - 3 * (2 * v (p + 1) - 1) ^ 2 +
              1 * (2 * v p - 1) - 2 * (2 * v (p + 1) - 1) - 1 +
              (0 + 0.3 * v (p + 2))) 3),
        ⟨v, p + 3⟩) := rfl

/-- Unfolding of one `twodimquadratic` pull. -/
theorem reg_twodimquadratic_eq (v : ℕ → ℚ) (p : ℕ) :
    generate_reg_point "twodimquadratic" ⟨v, p⟩ =
      .ok (([pyround (2 * v p - 1) 3, pyround (2 * v (p + 1) - 1) 3],
            pyround (2 * (2 * v p - 1) ^ 2 - 3 * (2 * v (p + 1) - 1) ^ 2 +
              4 * (2 * v p - 1) * (2 * v (p + 1) - 1) +
              1 * (2 * v p - 1) - 2 * (2 * v (p + 1) - 1) - 1 +
              (0 + 0.3 * v (p + 2))) 3),
        ⟨v, p + 3⟩) := rfl

/-- Unfolding of one `cubic` pull. -/
theorem reg_cubic_eq (v : ℕ → ℚ) (p : ℕ) :
    generate_reg_point "cubic" ⟨v, p⟩ =
      .ok (([pyround (2 * v p - 1) 3],
            pyround (-2 * (2 * v p - 1) ^ 3 + 2 * (2 * v p - 1) ^ 2 +
              1 * (2 * v p - 1) - 1 + (0 + 0.3 * v (p + 1))) 3),
        ⟨v, p + 2⟩) := rfl

/-- An unrecognized classification strategy raises on the first pull. -/
theorem clf_unsupported (s : String) (hs : s ∉ clfStrategies) (g : RNG) :
    generate_clf_point s g = .error .UnsupportedStrategy := by
  simp only [clfStrategies, List.mem_cons, List.not_mem_nil, or_false, not_or] at hs
  obtain ⟨h1, h2, h3, h4, h5, h6, h7, h8⟩ := hs
  simp [generate_clf_point, clfBranch, h1, h2, h3, h4, h5, h6, h7, h8]

/-- An unrecognized regression strategy raises on the first pull. -/
theorem reg_unsupported (s : String) (hs : s ∉ regStrategies) (g : RNG) :
    generate_reg_point s g = .error .UnsupportedStrategy := by
  simp only [regStrategies, List.mem_cons, List.not_mem_nil, or_false, not_or] at hs
  obtain ⟨h1, h2, h3, h4, h5, h6, h7⟩ := hs
  simp [generate_reg_point, regBranch, h1, h2, h3, h4, h5, h6, h7]

end ShapeLemmas

section PullsMachinery

variable {α : Type}

theorem pulls_zero (step : RNG → Except GenError (α × RNG)) (g : RNG) :
    pulls step 0 g = .ok ([], g) := rfl

theorem pulls_succ (step : RNG → Except GenError (α × RNG)) (n : ℕ) (g : RNG) :
    pulls step (n + 1) g =
      match step g with
      | .error e => .error e
      | .ok (x, g1) =>
        match pulls step n g1 with
        | .error e => .error e
        | .ok (l, g2) => .ok (x :: l, g2) := rfl

/-- Pulling `n + 1` samples is pulling `n` samples and then one more. -/
theorem pulls_succ_snoc (step : RNG → Except GenError (α × RNG)) :
    ∀ (n : ℕ) (g : RNG),
      pulls step (n + 1) g =
        match pulls step n g with
        | .error e => .error e
        | .ok (l, g1) =>
          match step g1 with
          | .error e => .error e
          | .ok (x, g2) => .ok (l ++ [x], g2) := by
  intro n
  induction n with
  | zero =>
    intro g
    rw [pulls_succ step 0 g, pulls_zero]
    cases h : step g with
    | error e => simp only [h]
    | ok r => obtain ⟨x, g1⟩ := r; simp [h, pulls_zero]
  | succ m ih =>
    intro g
    rw [pulls_succ step (m + 1) g, pulls_succ step m g]
    cases h : step g with
    | error e => simp only [h]
    | ok r =>
      obtain ⟨x, g1⟩ := r
      simp only [h]
      rw [ih g1]
      cases h2 : pulls step m g1 with
      | error e => simp only [h2]
      | ok r2 =>
        obtain ⟨l, g2⟩ := r2
        simp only [h2]
        cases h3 : step g2 with
        | error e => simp only [h3]
        | ok r3 => obtain ⟨y, g3⟩ := r3; simp only [h3, List.cons_append]

/-- Structure eta for the random source, driven by a stream equation. -/
theorem RNG.eta_vals {g : RNG} {v : ℕ → ℚ} (h : g.vals = v) : g = ⟨v, g.pos⟩ := by
  cases g
  cases h
  rfl

theorem seqAt_zero (step : RNG → Except GenError (α × RNG)) (g : RNG) :
    seqAt step 0 g = step g := rfl

theorem seqAt_succ (step : RNG → Except GenError (α × RNG)) (n : ℕ) (g : RNG) :
    seqAt step (n + 1) g =
      match seqAt step n g with
      | Except.error e => Except.error e
      | Except.ok (_, g1) => step g1 := rfl

/-- The sample of index `n` of one persistent generator is what a fresh pull
yields after `n` pulls have already consumed the shared random source. -/
theorem seqAt_eq_pulls (step : RNG → Except GenError (α × RNG)) :
    ∀ (n : ℕ) (g : RNG),
      seqAt step n g = (pulls step n g).bind (fun pr => step pr.2) := by
  intro n
  induction n with
  | zero => intro g; rw [seqAt_zero, pulls_zero]; rfl
  | succ m ih =>
    intro g
    rw [seqAt_succ step m g, ih g, pulls_succ_snoc step m g]
    cases h : pulls step m g with
    | error e => simp only [Except.bind]
    | ok r =>
      obtain ⟨l, g1⟩ := r
      simp only [Except.bind]
      cases h2 : step g1 with
      | error e => simp only [Except.bind]
      | ok r2 => obtain ⟨x, g2⟩ := r2; simp only [Except.bind]

/-- A step that cannot fail makes `pulls` return exactly `n` samples. -/
theorem pulls_ok (step : RNG → Except GenError (α × RNG))
    (hok : ∀ g, ∃ r, step g = .ok r) :
    ∀ (n : ℕ) (g : RNG), ∃ l g1, pulls step n g = .ok (l, g1) ∧ l.length = n := by
  intro n
  induction n with
  | zero => intro g; exact ⟨[], g, rfl, rfl⟩
  | succ m ih =>
    intro g
    obtain ⟨⟨x, g1⟩, h1⟩ := hok g
    obtain ⟨l, g2, h2, hl⟩ := ih g1
    refine ⟨x :: l, g2, ?_, by simp [hl]⟩
    rw [pulls_succ]
    simp only [h1, h2]

/-- Stream function and position bounds propagate from the step to `pulls`. -/
theorem pulls_vals_pos (step : RNG → Except GenError (α × RNG))
    (hvp : ∀ v p x g1, step ⟨v, p⟩ = .ok (x, g1) →
      g1.vals = v ∧ p ≤ g1.pos ∧ g1.pos ≤ p + 5) :
    ∀ (n : ℕ) (v : ℕ → ℚ) (p : ℕ) (l : List α) (g1 : RNG),
      pulls step n ⟨v, p⟩ = .ok (l, g1) →
      g1.vals = v ∧ p ≤ g1.pos ∧ g1.pos ≤ p + 5 * n := by
  intro n
  induction n with
  | zero =>
    intro v p l g1 h
    rw [pulls_zero] at h
    obtain ⟨rfl, rfl⟩ : l = [] ∧ g1 = ⟨v, p⟩ := by
      constructor <;> cases h <;> rfl
    exact ⟨rfl, Nat.le_refl p, Nat.le_add_right p (5 * 0)⟩
  | succ m ih =>
    intro v p l g1 h
    rw [pulls_succ] at h
    cases h1 : step ⟨v, p⟩ with
    | error e => rw [h1] at h; cases h
    | ok r =>
      obtain ⟨x, gmid⟩ := r
      simp only [h1] at h
      obtain ⟨hv, hp1, hp2⟩ := hvp v p x gmid h1
      rw [RNG.eta_vals hv] at h
      cases h2 : pulls step m ⟨v, gmid.pos⟩ with
      | error e => rw [h2] at h; cases h
      | ok r2 =>
        obtain ⟨l2, g2⟩ := r2
        rw [h2] at h
        obtain ⟨rfl, rfl⟩ : l = x :: l2 ∧ g1 = g2 := by
          constructor <;> cases h <;> rfl
        obtain ⟨h3, h4, h5⟩ := ih v gmid.pos l2 _ h2
        exact ⟨h3, by omega, by omega⟩

/-- Two streams that agree on the consumed window drive `pulls` to related
outcomes. -/
theorem pulls_congr (step : RNG → Except GenError (α × RNG))
    (hvp : ∀ v p x g1, step ⟨v, p⟩ = .ok (x, g1) →
      g1.vals = v ∧ p ≤ g1.pos ∧ g1.pos ≤ p + 5)
    (hcg : ∀ v v' p, (∀ k, k < 5 → v (p + k) = v' (p + k)) →
      StepRel (step ⟨v, p⟩) (step ⟨v', p⟩)) :
    ∀ (n : ℕ) (v v' : ℕ → ℚ) (p : ℕ),
      (∀ k, k < p + 5 * n → v k = v' k) →
      StepRel (pulls step n ⟨v, p⟩) (pulls step n ⟨v', p⟩) := by
  intro n
  induction n with
  | zero =>
    intro v v' p _
    rw [pulls_zero, pulls_zero]
    exact ⟨rfl, rfl⟩
  | succ m ih =>
    intro v v' p h
    have hs := hcg v v' p (fun k hk => h (p + k) (by omega))
    cases h1 : step ⟨v, p⟩ with
    | error e =>
      cases h1' : step ⟨v', p⟩ with
      | error e' =>
        rw [h1, h1'] at hs
        simp only [pulls_succ, h1, h1']
        exact hs
      | ok r' => rw [h1, h1'] at hs; exact absurd hs (by simp [StepRel])
    | ok r =>
      cases h1' : step ⟨v', p⟩ with
      | error e' =>
        rw [h1, h1'] at hs
        obtain ⟨x, g1⟩ := r
        exact absurd hs (by simp [StepRel])
      | ok r' =>
        obtain ⟨x, g1⟩ := r
        obtain ⟨x', g1'⟩ := r'
        rw [h1, h1'] at hs
        obtain ⟨rfl, hpos⟩ := hs
        obtain ⟨hv, hp1, hp2⟩ := hvp v p x g1 h1
        obtain ⟨hv', _, _⟩ := hvp v' p x g1' h1'
        have e1 : g1 = ⟨v, g1.pos⟩ := RNG.eta_vals hv
        have e2 : g1' = ⟨v', g1.pos⟩ := by rw [RNG.eta_vals hv', ← hpos]
        simp only [pulls_succ, h1, h1']
        rw [e1, e2]
        have htail := ih v v' g1.pos (fun k hk => h k (by omega))
        cases h2 : pulls step m ⟨v, g1.pos⟩ with
        | error e =>
          cases h2' : pulls step m ⟨v', g1.pos⟩ with
          | error e' => rw [h2, h2'] at htail; simp only; exact htail
          | ok r2' => rw [h2, h2'] at htail; exact absurd htail (by simp [StepRel])
        | ok r2 =>
          cases h2' : pulls step m ⟨v', g1.pos⟩ with
          | error e' =>
            rw [h2, h2'] at htail
            obtain ⟨l2, g2⟩ := r2
            exact absurd htail (by simp [StepRel])
          | ok r2' =>
            obtain ⟨l2, g2⟩ := r2
            obtain ⟨l2', g2'⟩ := r2'
            rw [h2, h2'] at htail
            obtain ⟨rfl, hpos2⟩ := htail
            exact ⟨rfl, hpos2⟩

end PullsMachinery

section StepFacts

/-- One classification pull preserves the stream and advances the position
by the number of draws of its branch, at most 5. -/
theorem clf_vals_pos (s : String) :
    ∀ (v : ℕ → ℚ) (p : ℕ) (x : List ℚ × ℤ) (g1 : RNG),
      generate_clf_point s ⟨v, p⟩ = .ok (x, g1) →
      g1.vals = v ∧ p ≤ g1.pos ∧ g1.pos ≤ p + 5 := by
  intro v p x g1 h
  by_cases e1 : s = "halfs"
  · subst e1; rw [clf_halfs_eq] at h; cases h
    exact ⟨rfl, show p ≤ p + 3 by omega, show p + 3 ≤ p + 5 by omega⟩
  by_cases e2 : s = "quarters"
  · subst e2; rw [clf_quarters_eq] at h; cases h
    exact ⟨rfl, show p ≤ p + 2 by omega, show p + 2 ≤ p + 5 by omega⟩
  by_cases e3 : s = "diagonal"
  · subst e3; rw [clf_diagonal_eq] at h; cases h
    exact ⟨rfl, show p ≤ p + 2 by omega, show p + 2 ≤ p + 5 by omega⟩
  by_cases e4 : s = "shifteddiagonal"
  · subst e4; rw [clf_shifteddiagonal_eq] at h; cases h
    exact ⟨rfl, show p ≤ p + 2 by omega, show p + 2 ≤ p + 5 by omega⟩
  by_cases e5 : s = "circle"
  · subst e5; rw [clf_circle_eq] at h; cases h
    exact ⟨rfl, show p ≤ p + 2 by omega, show p + 2 ≤ p + 5 by omega⟩
  by_cases e6 : s = "ellipse"
  · subst e6; rw [clf_ellipse_eq] at h; cases h
    exact ⟨rfl, show p ≤ p + 2 by omega, show p + 2 ≤ p + 5 by omega⟩
  by_cases e7 : s = "circles"
  · subst e7; rw [clf_circles_eq] at h; cases h
    exact ⟨rfl, show p ≤ p + 2 by omega, show p + 2 ≤ p + 5 by omega⟩
  by_cases e8 : s = "bernoulli"
  · subst e8; rw [clf_bernoulli_eq] at h; cases h
    exact ⟨rfl, show p ≤ p + 5 by omega, show p + 5 ≤ p + 5 by omega⟩
  · rw [clf_unsupported s (by simp [clfStrategies, e1, e2, e3, e4, e5, e6, e7, e8])] at h
    cases h

/-- One regression pull preserves the stream and advances the position by
the number of draws of its branch plus the Gaussian draw, at most 5. -/
theorem reg_vals_pos (s : String) :
    ∀ (v : ℕ → ℚ) (p : ℕ) (x : List ℚ × ℚ) (g1 : RNG),
      generate_reg_point s ⟨v, p⟩ = .ok (x, g1) →
      g1.vals = v ∧ p ≤ g1.pos ∧ g1.pos ≤ p + 5 := by
  intro v p x g1 h
  by_cases e1 : s = "linear"
  · subst e1; rw [reg_linear_eq] at h; cases h
    exact ⟨rfl, show p ≤ p + 2 by omega, show p + 2 ≤ p + 5 by omega⟩
  by_cases e2 : s = "twodimlinear"
  · subst e2; rw [reg_twodimlinear_eq] at h; cases h
    exact ⟨rfl, show p ≤ p + 3 by omega, show p + 3 ≤ p + 5 by omega⟩
  by_cases e3 : s = "multidimlinear"
  · subst e3; rw [reg_multidimlinear_eq] at h; cases h
    exact ⟨rfl, show p ≤ p + 5 by omega, show p + 5 ≤ p + 5 by omega⟩
  by_cases e4 : s = "quadratic"
  · subst e4; rw [reg_quadratic_eq] at h; cases h
    exact ⟨rfl, show p ≤ p + 2 by omega, show p + 2 ≤ p + 5 by omega⟩
  by_cases e5 : s = "twodimcubic"
  · subst e5; rw [reg_twodimcubic_eq] at h; cases h
    exact ⟨rfl, show p ≤ p + 3 by omega, show p + 3 ≤ p + 5 by omega⟩
  by_cases e6 : s = "twodimquadratic"
  · subst e6; rw [reg_twodimquadratic_eq] at h; cases h
    exact ⟨rfl, show p ≤ p + 3 by omega, show p + 3 ≤ p + 5 by omega⟩
  by_cases e7 : s = "cubic"
  · subst e7; rw [reg_cubic_eq] at h; cases h
    exact ⟨rfl, show p ≤ p + 2 by omega, show p + 2 ≤ p + 5 by omega⟩
  · rw [reg_unsupported s (by simp [regStrategies, e1, e2, e3, e4, e5, e6, e7])] at h
    cases h

/-- One classification pull reads only the stream window it consumes. -/
theorem clf_congr_step (s : String) (v v' : ℕ → ℚ) (p : ℕ)
    (h : ∀ k, k < 5 → v (p + k) = v' (p + k)) :
    StepRel (generate_clf_point s ⟨v, p⟩) (generate_clf_point s ⟨v', p⟩) := by
  have h0 : v p = v' p := by simpa using h 0 (by omega)
  have h1 : v (p + 1) = v' (p + 1) := h 1 (by omega)
  have h2 : v (p + 2) = v' (p + 2) := h 2 (by omega)
  have h3 : v (p + 3) = v' (p + 3) := h 3 (by omega)
  have h4 : v (p + 4) = v' (p + 4) := h 4 (by omega)
  by_cases e1 : s = "halfs"
  · subst e1; rw [clf_halfs_eq, clf_halfs_eq, h0, h1, h2]; exact ⟨rfl, rfl⟩
  by_cases e2 : s = "quarters"
  · subst e2; rw [clf_quarters_eq, clf_quarters_eq, h0, h1]; exact ⟨rfl, rfl⟩
  by_cases e3 : s = "diagonal"
  · subst e3; rw [clf_diagonal_eq, clf_diagonal_eq, h0, h1]; exact ⟨rfl, rfl⟩
  by_cases e4 : s = "shifteddiagonal"
  · subst e4; rw [clf_shifteddiagonal_eq, clf_shifteddiagonal_eq, h0, h1]
    exact ⟨rfl, rfl⟩
  by_cases e5 : s = "circle"
  · subst e5; rw [clf_circle_eq, clf_circle_eq, h0, h1]; exact ⟨rfl, rfl⟩
  by_cases e6 : s = "ellipse"
  · subst e6; rw [clf_ellipse_eq, clf_ellipse_eq, h0, h1]; exact ⟨rfl, rfl⟩
  by_cases e7 : s = "circles"
  · subst e7; rw [clf_circles_eq, clf_circles_eq, h0, h1]; exact ⟨rfl, rfl⟩
  by_cases e8 : s = "bernoulli"
  · subst e8; rw [clf_bernoulli_eq, clf_bernoulli_eq, h0, h1, h2, h3, h4]
    exact ⟨rfl, rfl⟩
  · have hs : s ∉ clfStrategies := by
      simp [clfStrategies, e1, e2, e3, e4, e5, e6, e7, e8]
    rw [clf_unsupported s hs, clf_unsupported s hs]
    exact rfl

/-- One regression pull reads only the stream window it consumes. -/
theorem reg_congr_step (s : String) (v v' : ℕ → ℚ) (p : ℕ)
    (h : ∀ k, k < 5 → v (p + k) = v' (p + k)) :
    StepRel (generate_reg_point s ⟨v, p⟩) (generate_reg_point s ⟨v', p⟩) := by
  have h0 : v p = v' p := by simpa using h 0 (by omega)
  have h1 : v (p + 1) = v' (p + 1) := h 1 (by omega)
  have h2 : v (p + 2) = v' (p + 2) := h 2 (by omega)
  have h3 : v (p + 3) = v' (p + 3) := h 3 (by omega)
  have h4 : v (p + 4) = v' (p + 4) := h 4 (by omega)
  by_cases e1 : s = "linear"
  · subst e1; rw [reg_linear_eq, reg_linear_eq, h0, h1]; exact ⟨rfl, rfl⟩
  by_cases e2 : s = "twodimlinear"
  · subst e2; rw [reg_twodimlinear_eq, reg_twodimlinear_eq, h0, h1, h2]
    exact ⟨rfl, rfl⟩
  by_cases e3 : s = "multidimlinear"
  · subst e3; rw [reg_multidimlinear_eq, reg_multidimlinear_eq, h0, h1, h2, h3, h4]
    exact ⟨rfl, rfl⟩
  by_cases e4 : s = "quadratic"
  · subst e4; rw [reg_quadratic_eq, reg_quadratic_eq, h0, h1]; exact ⟨rfl, rfl⟩
  by_cases e5 : s = "twodimcubic"
  · subst e5; rw [reg_twodimcubic_eq, reg_twodimcubic_eq, h0, h1, h2]
    exact ⟨rfl, rfl⟩
  by_cases e6 : s = "twodimquadratic"
  · subst e6; rw [reg_twodimquadratic_eq, reg_twodimquadratic_eq, h0, h1, h2]
    exact ⟨rfl, rfl⟩
  by_cases e7 : s = "cubic"
  · subst e7; rw [reg_cubic_eq, reg_cubic_eq, h0, h1]; exact ⟨rfl, rfl⟩
  · have hs : s ∉ regStrategies := by
      simp [regStrategies, e1, e2, e3, e4, e5, e6, e7]
    rw [reg_unsupported s hs, reg_unsupported s hs]
    exact rfl

/-- A supported classification strategy never fails. -/
theorem clf_supported_ok (s : String) (hs : s ∈ clfStrategies) (g : RNG) :
    ∃ r, generate_clf_point s g = .ok r := by
  obtain ⟨v, p⟩ := g
  simp only [clfStrategies, List.mem_cons, List.not_mem_nil, or_false] at hs
  rcases hs with rfl | rfl | rfl | rfl | rfl | rfl | rfl | rfl
  · exact ⟨_, clf_halfs_eq v p⟩
  · exact ⟨_, clf_quarters_eq v p⟩
  · exact ⟨_, clf_diagonal_eq v p⟩
  · exact ⟨_, clf_circle_eq v p⟩
  · exact ⟨_, clf_ellipse_eq v p⟩
  · exact ⟨_, clf_circles_eq v p⟩
  · exact ⟨_, clf_shifteddiagonal_eq v p⟩
  · exact ⟨_, clf_bernoulli_eq v p⟩

/-- A supported regression strategy never fails. -/
theorem reg_supported_ok (s : String) (hs : s ∈ regStrategies) (g : RNG) :
    ∃ r, generate_reg_point s g = .ok r := by
  obtain ⟨v, p⟩ := g
  simp only [regStrategies, List.mem_cons, List.not_mem_nil, or_false] at hs
  rcases hs with rfl | rfl | rfl | rfl | rfl | rfl | rfl
  · exact ⟨_, reg_linear_eq v p⟩
  · exact ⟨_, reg_twodimlinear_eq v p⟩
  · exact ⟨_, reg_multidimlinear_eq v p⟩
  · exact ⟨_, reg_quadratic_eq v p⟩
  · exact ⟨_, reg_twodimquadratic_eq v p⟩
  · exact ⟨_, reg_cubic_eq v p⟩
  · exact ⟨_, reg_twodimcubic_eq v p⟩

end StepFacts

section SplitFacts

/-- Closed form for repeated `circle` pulls: sample `i` reads the stream at
indices `p + 2 i` and `p + 2 i + 1`. -/
theorem circle_pulls (v : ℕ → ℚ) :
    ∀ (n : ℕ) (p : ℕ),
      pulls (generate_clf_point "circle") n ⟨v, p⟩ =
        .ok ((List.range n).map (fun i => circleSample v (p + 2 * i)),
          ⟨v, p + 2 * n⟩) := by
  intro n
  induction n with
  | zero =>
    intro p
    rw [pulls_zero]
    norm_num
  | succ m ih =>
    intro p
    rw [pulls_succ]
    have hstep : generate_clf_point "circle" ⟨v, p⟩ =
        .ok (circleSample v p, ⟨v, p + 2⟩) := clf_circle_eq v p
    rw [hstep]
    simp only
    rw [ih (p + 2)]
    simp only
    have hlist : circleSample v p ::
        (List.range m).map (fun i => circleSample v (p + 2 + 2 * i)) =
        (List.range (m + 1)).map (fun i => circleSample v (p + 2 * i)) := by
      rw [List.range_succ_eq_map, List.map_cons, List.map_map]
      have hhead : circleSample v p = circleSample v (p + 2 * 0) := by norm_num
      have htail2 : (List.range m).map (fun i => circleSample v (p + 2 + 2 * i)) =
          (List.range m).map ((fun i => circleSample v (p + 2 * i)) ∘ Nat.succ) := by
        apply List.map_congr_left
        intro i _
        simp only [Function.comp_apply]
        congr 1
        omega
      rw [← hhead, ← htail2]
    have hpos : p + 2 + 2 * m = p + 2 * (m + 1) := by ring
    rw [hlist, hpos]

/-- Closed form for one `circle` split: one Example pull then 1000 rows,
2002 draws in total. -/
theorem circle_split (v : ℕ → ℚ) (p : ℕ) :
    clfSplit "circle" ⟨v, p⟩ =
      .ok ({ header := "Index X Y Type",
             rows := (List.range nInstances).zip
               ((List.range nInstances).map
                 (fun i => circleSample v (p + 2 + 2 * i))) },
        ⟨v, p + 2002⟩) := by
  have hstep : generate_clf_point "circle" ⟨v, p⟩ =
      .ok (circleSample v p, ⟨v, p + 2⟩) := clf_circle_eq v p
  simp only [clfSplit, hstep, circle_pulls v nInstances (p + 2)]
  have : p + 2 + 2 * nInstances = p + 2002 := by norm_num [nInstances]
  rw [this]

/-- A split is the first `Example` pull followed by the 1000 written pulls:
1001 pulls in total, with the rows being all pulled samples but the first. -/
theorem clfSplit_eq_pulls (s : String) (g : RNG) :
    clfSplit s g =
      match pulls (generate_clf_point s) (nInstances + 1) g with
      | .error e => .error e
      | .ok (l, g2) =>
        .ok ({ header := "Index X Y Type",
               rows := (List.range nInstances).zip l.tail }, g2) := by
  rw [pulls_succ]
  cases h1 : generate_clf_point s g with
  | error e => simp only [clfSplit, h1]
  | ok r =>
    obtain ⟨x, g1⟩ := r
    simp only [clfSplit, h1]
    cases h2 : pulls (generate_clf_point s) nInstances g1 with
    | error e => simp only
    | ok r2 =>
      obtain ⟨l, g2⟩ := r2
      simp only [List.tail_cons]

/-- Regression counterpart of `clfSplit_eq_pulls`. -/
theorem regSplit_eq_pulls (s : String) (g : RNG) :
    regSplit s g =
      match pulls (generate_reg_point s) (nInstances + 1) g with
      | .error e => .error e
      | .ok (l, g2) =>
        .ok ({ header := "Index X Y",
               rows := (List.range nInstances).zip l.tail }, g2) := by
  rw [pulls_succ]
  cases h1 : generate_reg_point s g with
  | error e => simp only [regSplit, h1]
  | ok r =>
    obtain ⟨x, g1⟩ := r
    simp only [regSplit, h1]
    cases h2 : pulls (generate_reg_point s) nInstances g1 with
    | error e => simp only
    | ok r2 =>
      obtain ⟨l, g2⟩ := r2
      simp only [List.tail_cons]

set_option maxRecDepth 4000 in
/-- For a supported classification strategy, the split succeeds, writes the
fixed header and exactly 1000 indexed rows, and its final source state is
that of exactly 1001 pulls. -/
theorem clfSplit_supported (s : String) (hs : s ∈ clfStrategies) (g : RNG) :
    ∃ f g2 l, clfSplit s g = .ok (f, g2) ∧
      pulls (generate_clf_point s) (nInstances + 1) g = .ok (l, g2) ∧
      l.length = nInstances + 1 ∧
      f.header = "Index X Y Type" ∧
      f.rows = (List.range nInstances).zip l.tail ∧
      f.rows.length = nInstances ∧
      f.rows.map Prod.fst = List.range nInstances := by
  obtain ⟨l, g2, hp, hl⟩ := pulls_ok _ (clf_supported_ok s hs) (nInstances + 1) g
  have hsplit : clfSplit s g =
      .ok ({ header := "Index X Y Type",
             rows := (List.range nInstances).zip l.tail }, g2) := by
    rw [clfSplit_eq_pulls, hp]
  have htail : l.tail.length = nInstances := by
    simp [List.length_tail, hl]
  refine ⟨{ header := "Index X Y Type",
            rows := (List.range nInstances).zip l.tail }, g2, l,
    hsplit, hp, hl, rfl, rfl, ?_, ?_⟩
  · simp [List.length_zip, htail]
  · apply List.map_fst_zip
    simp [htail]

set_option maxRecDepth 4000 in
/-- Regression counterpart of `clfSplit_supported`. -/
theorem regSplit_supported (s : String) (hs : s ∈ regStrategies) (g : RNG) :
    ∃ f g2 l, regSplit s g = .ok (f, g2) ∧
      pulls (generate_reg_point s) (nInstances + 1) g = .ok (l, g2) ∧
      l.length = nInstances + 1 ∧
      f.header = "Index X Y" ∧
      f.rows = (List.range nInstances).zip l.tail ∧
      f.rows.length = nInstances ∧
      f.rows.map Prod.fst = List.range nInstances := by
  obtain ⟨l, g2, hp, hl⟩ := pulls_ok _ (reg_supported_ok s hs) (nInstances + 1) g
  have hsplit : regSplit s g =
      .ok ({ header := "Index X Y",
             rows := (List.range nInstances).zip l.tail }, g2) := by
    rw [regSplit_eq_pulls, hp]
  have htail : l.tail.length = nInstances := by
    simp [List.length_tail, hl]
  refine ⟨{ header := "Index X Y",
            rows := (List.range nInstances).zip l.tail }, g2, l,
    hsplit, hp, hl, rfl, rfl, ?_, ?_⟩
  · simp [List.length_zip, htail]
  · apply List.map_fst_zip
    simp [htail]

/-- For a supported classification strategy the run produces exactly the two
files, the test split resuming from the state the train split left. -/
theorem runClf_supported (s : String) (hs : s ∈ clfStrategies) (g : RNG) :
    ∃ f1 g1 f2 g2, clfSplit s g = .ok (f1, g1) ∧ clfSplit s g1 = .ok (f2, g2) ∧
      runClf s g = ([("clf_train.csv", f1), ("clf_test.csv", f2)], none) := by
  obtain ⟨f1, g1, l1, h1, -⟩ := clfSplit_supported s hs g
  obtain ⟨f2, g2, l2, h2, -⟩ := clfSplit_supported s hs g1
  exact ⟨f1, g1, f2, g2, h1, h2, by simp only [runClf, h1, h2]⟩

/-- Regression counterpart of `runClf_supported`. -/
theorem runReg_supported (s : String) (hs : s ∈ regStrategies) (g : RNG) :
    ∃ f1 g1 f2 g2, regSplit s g = .ok (f1, g1) ∧ regSplit s g1 = .ok (f2, g2) ∧
      runReg s g = ([("reg_train.csv", f1), ("reg_test.csv", f2)], none) := by
  obtain ⟨f1, g1, l1, h1, -⟩ := regSplit_supported s hs g
  obtain ⟨f2, g2, l2, h2, -⟩ := regSplit_supported s hs g1
  exact ⟨f1, g1, f2, g2, h1, h2, by simp only [runReg, h1, h2]⟩

/-- An unsupported classification run fails before creating any file. -/
theorem runClf_unsupported (s : String) (hs : s ∉ clfStrategies) (g : RNG) :
    runClf s g = ([], some .UnsupportedStrategy) := by
  have hsplit : clfSplit s g = .error .UnsupportedStrategy := by
    simp only [clfSplit, clf_unsupported s hs g]
  simp only [runClf, hsplit]

/-- An unsupported regression run fails before creating any file. -/
theorem runReg_unsupported (s : String) (hs : s ∉ regStrategies) (g : RNG) :
    runReg s g = ([], some .UnsupportedStrategy) := by
  have hsplit : regSplit s g = .error .UnsupportedStrategy := by
    simp only [regSplit, reg_unsupported s hs g]
  simp only [runReg, hsplit]

end SplitFacts

section RunCongruence

/-- The split preserves the stream and consumes at most `5 * 1001` draws. -/
theorem clfSplit_vals_pos (s : String) (v : ℕ → ℚ) (p : ℕ) (f : ClfFile)
    (g1 : RNG) (h : clfSplit s ⟨v, p⟩ = .ok (f, g1)) :
    g1.vals = v ∧ p ≤ g1.pos ∧ g1.pos ≤ p + 5 * (nInstances + 1) := by
  rw [clfSplit_eq_pulls] at h
  cases hp : pulls (generate_clf_point s) (nInstances + 1) ⟨v, p⟩ with
  | error e => rw [hp] at h; cases h
  | ok r =>
    obtain ⟨l, g2⟩ := r
    rw [hp] at h
    obtain ⟨rfl⟩ : g1 = g2 := by cases h; rfl
    exact pulls_vals_pos _ (clf_vals_pos s) (nInstances + 1) v p l g1 hp

/-- Regression counterpart of `clfSplit_vals_pos`. -/
theorem regSplit_vals_pos (s : String) (v : ℕ → ℚ) (p : ℕ) (f : RegFile)
    (g1 : RNG) (h : regSplit s ⟨v, p⟩ = .ok (f, g1)) :
    g1.vals = v ∧ p ≤ g1.pos ∧ g1.pos ≤ p + 5 * (nInstances + 1) := by
  rw [regSplit_eq_pulls] at h
  cases hp : pulls (generate_reg_point s) (nInstances + 1) ⟨v, p⟩ with
  | error e => rw [hp] at h; cases h
  | ok r =>
    obtain ⟨l, g2⟩ := r
    rw [hp] at h
    obtain ⟨rfl⟩ : g1 = g2 := by cases h; rfl
    exact pulls_vals_pos _ (reg_vals_pos s) (nInstances + 1) v p l g1 hp

/-- Two streams agreeing on the window a split consumes produce the same
file at the same final position. -/
theorem clfSplit_congr (s : String) (v v' : ℕ → ℚ) (p : ℕ)
    (h : ∀ k, k < p + 5 * (nInstances + 1) → v k = v' k) :
    StepRel (clfSplit s ⟨v, p⟩) (clfSplit s ⟨v', p⟩) := by
  rw [clfSplit_eq_pulls, clfSplit_eq_pulls]
  have hp := pulls_congr _ (clf_vals_pos s) (clf_congr_step s)
    (nInstances + 1) v v' p h
  cases h1 : pulls (generate_clf_point s) (nInstances + 1) ⟨v, p⟩ with
  | error e =>
    cases h1' : pulls (generate_clf_point s) (nInstances + 1) ⟨v', p⟩ with
    | error e' => rw [h1, h1'] at hp; simp only; exact hp
    | ok r' => rw [h1, h1'] at hp; exact absurd hp (by simp [StepRel])
  | ok r =>
    cases h1' : pulls (generate_clf_point s) (nInstances + 1) ⟨v', p⟩ with
    | error e' =>
      rw [h1, h1'] at hp
      obtain ⟨l, g1⟩ := r
      exact absurd hp (by simp [StepRel])
    | ok r' =>
      obtain ⟨l, g1⟩ := r
      obtain ⟨l', g1'⟩ := r'
      rw [h1, h1'] at hp
      obtain ⟨rfl, hpos⟩ := hp
      exact ⟨rfl, hpos⟩

/-- Regression counterpart of `clfSplit_congr`. -/
theorem regSplit_congr (s : String) (v v' : ℕ → ℚ) (p : ℕ)
    (h : ∀ k, k < p + 5 * (nInstances + 1) → v k = v' k) :
    StepRel (regSplit s ⟨v, p⟩) (regSplit s ⟨v', p⟩) := by
  rw [regSplit_eq_pulls, regSplit_eq_pulls]
  have hp := pulls_congr _ (reg_vals_pos s) (reg_congr_step s)
    (nInstances + 1) v v' p h
  cases h1 : pulls (generate_reg_point s) (nInstances + 1) ⟨v, p⟩ with
  | error e =>
    cases h1' : pulls (generate_reg_point s) (nInstances + 1) ⟨v', p⟩ with
    | error e' => rw [h1, h1'] at hp; simp only; exact hp
    | ok r' => rw [h1, h1'] at hp; exact absurd hp (by simp [StepRel])
  | ok r =>
    cases h1' : pulls (generate_reg_point s) (nInstances + 1) ⟨v', p⟩ with
    | error e' =>
      rw [h1, h1'] at hp
      obtain ⟨l, g1⟩ := r
      exact absurd hp (by simp [StepRel])
    | ok r' =>
      obtain ⟨l, g1⟩ := r
      obtain ⟨l', g1'⟩ := r'
      rw [h1, h1'] at hp
      obtain ⟨rfl, hpos⟩ := hp
      exact ⟨rfl, hpos⟩

/-- Two streams agreeing on the first `10 * 1001` entries drive the whole
classification run to identical output. -/
theorem runClf_congr (s : String) (v v' : ℕ → ℚ)
    (h : ∀ k, k < 10 * (nInstances + 1) → v k = v' k) :
    runClf s ⟨v, 0⟩ = runClf s ⟨v', 0⟩ := by
  have h1 := clfSplit_congr s v v' 0 (fun k hk => h k (by omega))
  cases e1 : clfSplit s ⟨v, 0⟩ with
  | error e =>
    cases e1' : clfSplit s ⟨v', 0⟩ with
    | error e' =>
      rw [e1, e1'] at h1
      cases h1
      simp only [runClf, e1, e1']
    | ok r' => rw [e1, e1'] at h1; exact absurd h1 (by simp [StepRel])
  | ok r =>
    cases e1' : clfSplit s ⟨v', 0⟩ with
    | error e' =>
      rw [e1, e1'] at h1
      obtain ⟨f1, g1⟩ := r
      exact absurd h1 (by simp [StepRel])
    | ok r' =>
      obtain ⟨f1, g1⟩ := r
      obtain ⟨f1', g1'⟩ := r'
      rw [e1, e1'] at h1
      obtain ⟨rfl, hpos⟩ := h1
      obtain ⟨hv, hp0, hp5⟩ := clfSplit_vals_pos s v 0 f1 g1 e1
      obtain ⟨hv', _, _⟩ := clfSplit_vals_pos s v' 0 f1 g1' e1'
      have eg1 : g1 = ⟨v, g1.pos⟩ := RNG.eta_vals hv
      have eg1' : g1' = ⟨v', g1.pos⟩ := by rw [RNG.eta_vals hv', ← hpos]
      have h2 := clfSplit_congr s v v' g1.pos (fun k hk => h k (by omega))
      rw [← eg1, ← eg1'] at h2
      cases e2 : clfSplit s g1 with
      | error e =>
        cases e2' : clfSplit s g1' with
        | error e' =>
          rw [e2, e2'] at h2
          cases h2
          simp only [runClf, e1, e1', e2, e2']
        | ok r2' => rw [e2, e2'] at h2; exact absurd h2 (by simp [StepRel])
      | ok r2 =>
        cases e2' : clfSplit s g1' with
        | error e' =>
          rw [e2, e2'] at h2
          obtain ⟨f2, g2⟩ := r2
          exact absurd h2 (by simp [StepRel])
        | ok r2' =>
          obtain ⟨f2, g2⟩ := r2
          obtain ⟨f2', g2'⟩ := r2'
          rw [e2, e2'] at h2
          obtain ⟨rfl, -⟩ := h2
          simp only [runClf, e1, e1', e2, e2']

/-- Regression counterpart of `runClf_congr`. -/
theorem runReg_congr (s : String) (v v' : ℕ → ℚ)
    (h : ∀ k, k < 10 * (nInstances + 1) → v k = v' k) :
    runReg s ⟨v, 0⟩ = runReg s ⟨v', 0⟩ := by
  have h1 := regSplit_congr s v v' 0 (fun k hk => h k (by omega))
  cases e1 : regSplit s ⟨v, 0⟩ with
  | error e =>
    cases e1' : regSplit s ⟨v', 0⟩ with
    | error e' =>
      rw [e1, e1'] at h1
      cases h1
      simp only [runReg, e1, e1']
    | ok r' => rw [e1, e1'] at h1; exact absurd h1 (by simp [StepRel])
  | ok r =>
    cases e1' : regSplit s ⟨v', 0⟩ with
    | error e' =>
      rw [e1, e1'] at h1
      obtain ⟨f1, g1⟩ := r
      exact absurd h1 (by simp [StepRel])
    | ok r' =>
      obtain ⟨f1, g1⟩ := r
      obtain ⟨f1', g1'⟩ := r'
      rw [e1, e1'] at h1
      obtain ⟨rfl, hpos⟩ := h1
      obtain ⟨hv, hp0, hp5⟩ := regSplit_vals_pos s v 0 f1 g1 e1
      obtain ⟨hv', _, _⟩ := regSplit_vals_pos s v' 0 f1 g1' e1'
      have eg1 : g1 = ⟨v, g1.pos⟩ := RNG.eta_vals hv
      have eg1' : g1' = ⟨v', g1.pos⟩ := by rw [RNG.eta_vals hv', ← hpos]
      have h2 := regSplit_congr s v v' g1.pos (fun k hk => h k (by omega))
      rw [← eg1, ← eg1'] at h2
      cases e2 : regSplit s g1 with
      | error e =>
        cases e2' : regSplit s g1' with
        | error e' =>
          rw [e2, e2'] at h2
          cases h2
          simp only [runReg, e1, e1', e2, e2']
        | ok r2' => rw [e2, e2'] at h2; exact absurd h2 (by simp [StepRel])
      | ok r2 =>
        cases e2' : regSplit s g1' with
        | error e' =>
          rw [e2, e2'] at h2
          obtain ⟨f2, g2⟩ := r2
          exact absurd h2 (by simp [StepRel])
        | ok r2' =>
          obtain ⟨f2, g2⟩ := r2
          obtain ⟨f2', g2'⟩ := r2'
          rw [e2, e2'] at h2
          obtain ⟨rfl, -⟩ := h2
          simp only [runReg, e1, e1', e2, e2']

end RunCongruence

section SampleHelpers

/-- Head of the indexed rows built by the driver. -/
theorem head_zip_range_map {β : Type} (f : ℕ → β) (n : ℕ) (hn : 0 < n) :
    ((List.range n).zip ((List.range n).map f)).head? = some (0, f 0) := by
  cases n with
  | zero => omega
  | succ m =>
    rw [List.range_succ_eq_map]
    simp

/-- One `linear` pull with a zero Gaussian draw: the feature and the target
are the exact values `u` and `2 u - 1` rounded to 3 digits, and the yielded
pair satisfies the linear law only up to the rounding error `3 / 2000`. -/
theorem linear_pull_zero_noise (v : ℕ → ℚ) (p : ℕ) (x : List ℚ) (y : ℚ)
    (g1 : RNG) (hnoise : v (p + 1) = 0)
    (h : generate_reg_point "linear" ⟨v, p⟩ = .ok ((x, y), g1)) :
    x = [pyround (2 * v p - 1) 3] ∧
    y = pyround (2 * (2 * v p - 1) - 1) 3 ∧
    ∀ x0 ∈ x, |y - (2 * x0 - 1)| ≤ 3 / 2000 := by
  rw [reg_linear_eq] at h
  cases h
  have harg : 2 * (2 * v p - 1) - 1 + (0 + 0.3 * v (p + 1)) =
      2 * (2 * v p - 1) - 1 := by rw [hnoise]; ring
  refine ⟨rfl, by rw [harg], ?_⟩
  intro x0 hx0
  simp only [List.mem_cons, List.not_mem_nil, or_false] at hx0
  subst hx0
  rw [harg]
  have h1 := abs_pyround_sub (2 * (2 * v p - 1) - 1) 3
  have h2 := abs_pyround_sub (2 * v p - 1) 3
  have h2' : |(2 * v p - 1) - pyround (2 * v p - 1) 3| ≤ 1 / (2 * 10 ^ 3) := by
    rw [abs_sub_comm]
    exact h2
  have key : pyround (2 * (2 * v p - 1) - 1) 3 - (2 * pyround (2 * v p - 1) 3 - 1) =
      (pyround (2 * (2 * v p - 1) - 1) 3 - (2 * (2 * v p - 1) - 1)) +
      2 * ((2 * v p - 1) - pyround (2 * v p - 1) 3) := by ring
  calc |pyround (2 * (2 * v p - 1) - 1) 3 - (2 * pyround (2 * v p - 1) 3 - 1)|
      = |(pyround (2 * (2 * v p - 1) - 1) 3 - (2 * (2 * v p - 1) - 1)) +
          2 * ((2 * v p - 1) - pyround (2 * v p - 1) 3)| := by rw [key]
    _ ≤ |pyround (2 * (2 * v p - 1) - 1) 3 - (2 * (2 * v p - 1) - 1)| +
        |2 * ((2 * v p - 1) - pyround (2 * v p - 1) 3)| := abs_add _ _
    _ ≤ 3 / 2000 := by
        rw [abs_mul]
        have habs2 : |(2 : ℚ)| = 2 := by norm_num
        rw [habs2]
        have e1 : (1 : ℚ) / (2 * 10 ^ 3) = 1 / 2000 := by norm_num
        rw [e1] at h1 h2'
        linarith [h1, h2']

/-- One `circle` pull: the yielded features are the rounded coordinates,
while the label tests the distance of the coordinates as drawn, before
rounding, with the boundary mapped to label 0. -/
theorem circle_pull_label (v : ℕ → ℚ) (p : ℕ) (x : List ℚ) (label : ℤ)
    (g1 : RNG)
    (h : generate_clf_point "circle" ⟨v, p⟩ = .ok ((x, label), g1)) :
    x = [pyround (2 * v p - 1) 2, pyround (2 * v (p + 1) - 1) 2] ∧
    (label = 1 ↔
      Real.sqrt (((2 * v p - 1 : ℚ) : ℝ) ^ 2 +
        ((2 * v (p + 1) - 1 : ℚ) : ℝ) ^ 2) < 0.5) ∧
    (Real.sqrt (((2 * v p - 1 : ℚ) : ℝ) ^ 2 +
        ((2 * v (p + 1) - 1 : ℚ) : ℝ) ^ 2) = 0.5 → label = 0) := by
  rw [clf_circle_eq] at h
  cases h
  have hb := sqrtlt_iff (a := (2 * v p - 1) ^ 2 + (2 * v (p + 1) - 1) ^ 2)
    (c := 0.5) (by norm_num)
  have hcast : (((2 * v p - 1) ^ 2 + (2 * v (p + 1) - 1) ^ 2 : ℚ) : ℝ) =
      ((2 * v p - 1 : ℚ) : ℝ) ^ 2 + ((2 * v (p + 1) - 1 : ℚ) : ℝ) ^ 2 := by
    push_cast
    ring
  have hhalf : (((0.5 : ℚ)) : ℝ) = (0.5 : ℝ) := by norm_num
  rw [hcast, hhalf] at hb
  refine ⟨rfl, ?_, ?_⟩
  · constructor
    · intro hl
      cases hc : sqrtlt ((2 * v p - 1) ^ 2 + (2 * v (p + 1) - 1) ^ 2) 0.5 with
      | false => rw [hc] at hl; simp at hl
      | true => exact hb.mp hc
    · intro hlt
      rw [hb.mpr hlt]
      simp
  · intro heq
    have hnot : ¬ Real.sqrt (((2 * v p - 1 : ℚ) : ℝ) ^ 2 +
        ((2 * v (p + 1) - 1 : ℚ) : ℝ) ^ 2) < 0.5 := by
      rw [heq]
      exact lt_irrefl _
    cases hc : sqrtlt ((2 * v p - 1) ^ 2 + (2 * v (p + 1) - 1) ^ 2) 0.5 with
    | false => simp
    | true => exact absurd (hb.mp hc) hnot

end SampleHelpers

section Claims

/-- C10: for every strategy and every state of the shared random source,
the driver's per-pull re-instantiation of the generator is equivalent to
consuming one persistent lazy sequence: the sample of index `n` of a single
persistent generator (`seqAt`) is exactly the fresh pull made after the `n`
driver pulls (`pulls`) have consumed the source, with the same sample and
the same resulting source state, for the classification and the regression
generator alike. -/
theorem C10_fresh_pull_equiv_lazy_seq (s : String) (n : ℕ) (g : RNG) :
    (seqAt (generate_clf_point s) n g =
      (pulls (generate_clf_point s) n g).bind
        (fun pr => generate_clf_point s pr.2)) ∧
    (seqAt (generate_reg_point s) n g =
      (pulls (generate_reg_point s) n g).bind
        (fun pr => generate_reg_point s pr.2)) :=
  ⟨seqAt_eq_pulls _ n g, seqAt_eq_pulls _ n g⟩

/-- C3: the output of a run is a deterministic function of the seeded
stream and the strategy: two runs whose streams agree on the finite prefix
a run can consume (10 draws per pull at most 5 each, `10 * 1001` entries)
produce identical output, in particular two runs from the same seed are
byte-identical. -/
theorem C3_deterministic_output (s : String) (v v' : ℕ → ℚ)
    (h : ∀ k, k < 10 * (nInstances + 1) → v k = v' k) :
    runClf s ⟨v, 0⟩ = runClf s ⟨v', 0⟩ ∧ runReg s ⟨v, 0⟩ = runReg s ⟨v', 0⟩ :=
  ⟨runClf_congr s v v' h, runReg_congr s v v' h⟩

/-- Witness for C3 at the constant stream and strategy `circle`. -/
theorem C3_witness :
    runClf "circle" ⟨fun _ => 0, 0⟩ = runClf "circle" ⟨fun _ => 0, 0⟩ ∧
    runReg "circle" ⟨fun _ => 0, 0⟩ = runReg "circle" ⟨fun _ => 0, 0⟩ :=
  C3_deterministic_output "circle" (fun _ => 0) (fun _ => 0) (fun _ _ => rfl)

/-- C4: a strategy identifier outside the enumerated set makes the very
first pull fail with the single error kind `UnsupportedStrategy`, the run
aborts with no file created; the generators raise no other error kind, and
a supported strategy never fails. -/
theorem C4_unsupported_strategy (s : String) (g : RNG) :
    (s ∉ clfStrategies → runClf s g = ([], some GenError.UnsupportedStrategy)) ∧
    (s ∉ regStrategies → runReg s g = ([], some GenError.UnsupportedStrategy)) ∧
    (∀ e g0, generate_clf_point s g0 = .error e →
      e = GenError.UnsupportedStrategy ∧ s ∉ clfStrategies) ∧
    (∀ e g0, generate_reg_point s g0 = .error e →
      e = GenError.UnsupportedStrategy ∧ s ∉ regStrategies) ∧
    (s ∈ clfStrategies → ∃ r, generate_clf_point s g = .ok r) ∧
    (s ∈ regStrategies → ∃ r, generate_reg_point s g = .ok r) := by
  refine ⟨fun hs => runClf_unsupported s hs g,
    fun hs => runReg_unsupported s hs g, ?_, ?_,
    fun hs => clf_supported_ok s hs g, fun hs => reg_supported_ok s hs g⟩
  · intro e g0 he
    cases e
    refine ⟨rfl, fun hs => ?_⟩
    obtain ⟨r, hr⟩ := clf_supported_ok s hs g0
    rw [hr] at he
    cases he
  · intro e g0 he
    cases e
    refine ⟨rfl, fun hs => ?_⟩
    obtain ⟨r, hr⟩ := reg_supported_ok s hs g0
    rw [hr] at he
    cases he

/-- Witness for C4 at the unsupported identifier `linear` for the
classification run and `circle` for the regression run. -/
theorem C4_witness :
    runClf "linear" ⟨fun _ => 0, 0⟩ = ([], some GenError.UnsupportedStrategy) ∧
    runReg "circle" ⟨fun _ => 0, 0⟩ = ([], some GenError.UnsupportedStrategy) :=
  ⟨(C4_unsupported_strategy "linear" ⟨fun _ => 0, 0⟩).1 (by decide),
   (C4_unsupported_strategy "circle" ⟨fun _ => 0, 0⟩).2.1 (by decide)⟩

/-- C8: every sample produced by the classification generator under a
supported strategy carries a label in `{0, 1}`. -/
theorem C8_label_binary (s : String) (hs : s ∈ clfStrategies) (g : RNG)
    (x : List ℚ) (label : ℤ) (g1 : RNG)
    (h : generate_clf_point s g = .ok ((x, label), g1)) :
    label = 0 ∨ label = 1 := by
  obtain ⟨v, p⟩ := g
  simp only [clfStrategies, List.mem_cons, List.not_mem_nil, or_false] at hs
  rcases hs with rfl | rfl | rfl | rfl | rfl | rfl | rfl | rfl
  · rw [clf_halfs_eq] at h; cases h; split_ifs <;> simp
  · rw [clf_quarters_eq] at h; cases h; split_ifs <;> simp
  · rw [clf_diagonal_eq] at h; cases h; split_ifs <;> simp
  · rw [clf_circle_eq] at h; cases h; split_ifs <;> simp
  · rw [clf_ellipse_eq] at h; cases h; split_ifs <;> simp
  · rw [clf_circles_eq] at h; cases h; split_ifs <;> simp
  · rw [clf_shifteddiagonal_eq] at h; cases h; split_ifs <;> simp
  · rw [clf_bernoulli_eq] at h; cases h; split_ifs <;> simp

/-- Witness for C8 at strategy `circle` and the constant stream. -/
theorem C8_witness :
    (if sqrtlt ((2 * (0 : ℚ) - 1) ^ 2 + (2 * (0 : ℚ) - 1) ^ 2) 0.5
      then (1 : ℤ) else 0) = 0 ∨
    (if sqrtlt ((2 * (0 : ℚ) - 1) ^ 2 + (2 * (0 : ℚ) - 1) ^ 2) 0.5
      then (1 : ℤ) else 0) = 1 :=
  C8_label_binary "circle" (by decide) ⟨fun _ => 0, 0⟩ _ _ _
    (clf_circle_eq (fun _ => 0) 0)

/-- C7: every `bernoulli` sample has exactly 5 features, each feature is 0
or 1, and the label is 1 exactly when the feature sum exceeds 2. -/
theorem C7_bernoulli_contract (g : RNG) (x : List ℚ) (label : ℤ) (g1 : RNG)
    (h : generate_clf_point "bernoulli" g = .ok ((x, label), g1)) :
    x.length = 5 ∧ (∀ xv ∈ x, xv = 0 ∨ xv = 1) ∧ (label = 1 ↔ 2 < x.sum) := by
  obtain ⟨v, p⟩ := g
  rw [clf_bernoulli_eq] at h
  cases h
  refine ⟨rfl, ?_, ?_⟩
  · intro xv hxv
    simp only [List.mem_cons, List.not_mem_nil, or_false] at hxv
    rcases hxv with rfl | rfl | rfl | rfl | rfl <;>
      rw [pyround_intCast] <;> split_ifs <;> norm_num
  · simp only [List.sum_cons, List.sum_nil, add_zero, pyround_intCast]
    generalize (if v p < 1 / 2 then (0 : ℤ) else 1) = b0
    generalize (if v (p + 1) < 1 / 2 then (0 : ℤ) else 1) = b1
    generalize (if v (p + 2) < 1 / 2 then (0 : ℤ) else 1) = b2
    generalize (if v (p + 3) < 1 / 2 then (0 : ℤ) else 1) = b3
    generalize (if v (p + 4) < 1 / 2 then (0 : ℤ) else 1) = b4
    constructor
    · intro hl
      split_ifs at hl with hgt
      · have h2 : ((2 : ℤ) : ℚ) < ((b0 + b1 + b2 + b3 + b4 : ℤ) : ℚ) := by
          exact_mod_cast hgt
        push_cast at h2
        linarith
      · exact absurd hl (by omega)
    · intro h2
      split_ifs with hgt
      · rfl
      · exfalso
        apply hgt
        have h3 : ((2 : ℤ) : ℚ) < ((b0 + b1 + b2 + b3 + b4 : ℤ) : ℚ) := by
          push_cast
          linarith
        exact_mod_cast h3

/-- Witness for C7 at the constant stream. -/
theorem C7_witness :
    [pyround (Int.cast (if (0 : ℚ) < 1 / 2 then (0 : ℤ) else 1)) 2,
      pyround (Int.cast (if (0 : ℚ) < 1 / 2 then (0 : ℤ) else 1)) 2,
      pyround (Int.cast (if (0 : ℚ) < 1 / 2 then (0 : ℤ) else 1)) 2,
      pyround (Int.cast (if (0 : ℚ) < 1 / 2 then (0 : ℤ) else 1)) 2,
      pyround (Int.cast (if (0 : ℚ) < 1 / 2 then (0 : ℤ) else 1)) 2].length = 5 ∧
    (∀ xv ∈ [pyround (Int.cast (if (0 : ℚ) < 1 / 2 then (0 : ℤ) else 1)) 2,
      pyround (Int.cast (if (0 : ℚ) < 1 / 2 then (0 : ℤ) else 1)) 2,
      pyround (Int.cast (if (0 : ℚ) < 1 / 2 then (0 : ℤ) else 1)) 2,
      pyround (Int.cast (if (0 : ℚ) < 1 / 2 then (0 : ℤ) else 1)) 2,
      pyround (Int.cast (if (0 : ℚ) < 1 / 2 then (0 : ℤ) else 1)) 2],
      xv = 0 ∨ xv = 1) ∧
    ((if (if (0 : ℚ) < 1 / 2 then (0 : ℤ) else 1) +
         (if (0 : ℚ) < 1 / 2 then (0 : ℤ) else 1) +
         (if (0 : ℚ) < 1 / 2 then (0 : ℤ) else 1) +
         (if (0 : ℚ) < 1 / 2 then (0 : ℤ) else 1) +
         (if (0 : ℚ) < 1 / 2 then (0 : ℤ) else 1) > 2 then (1 : ℤ) else 0) = 1 ↔
      2 < [pyround (Int.cast (if (0 : ℚ) < 1 / 2 then (0 : ℤ) else 1)) 2,
        pyround (Int.cast (if (0 : ℚ) < 1 / 2 then (0 : ℤ) else 1)) 2,
        pyround (Int.cast (if (0 : ℚ) < 1 / 2 then (0 : ℤ) else 1)) 2,
        pyround (Int.cast (if (0 : ℚ) < 1 / 2 then (0 : ℤ) else 1)) 2,
        pyround (Int.cast (if (0 : ℚ) < 1 / 2 then (0 : ℤ) else 1)) 2].sum) :=
  C7_bernoulli_contract ⟨fun _ => 0, 0⟩ _ _ _ (clf_bernoulli_eq (fun _ => 0) 0)

/-- C9: every feature yielded by the classification generator under a
well-formed stream (all its draws are uniform unit-interval draws) lies in
`[-1, 1]` and is an integer multiple of `10 ^ (-2)` (exactly 2 decimal
digits); for `halfs`, the first feature lies in `[-1, 0]` when the label is
0 and in `[0, 1]` when it is 1.  Every regression feature and target is an
integer multiple of `10 ^ (-3)` (exactly 3 decimal digits) for every stream
whatsoever: the rounding conjunct needs no range assumption, so samples
with arbitrary Gaussian deviates, negative or large, are covered. -/
theorem C9_ranges_and_rounding (g : RNG) :
    (g.wf →
      ∀ s ∈ clfStrategies, ∀ x label g1,
        generate_clf_point s g = .ok ((x, label), g1) →
        (∀ xv ∈ x, (-1 ≤ xv ∧ xv ≤ 1) ∧ ∃ m : ℤ, xv = (m : ℚ) / 10 ^ 2) ∧
        (s = "halfs" → ∃ x0 x1, x = [x0, x1] ∧
          (label = 0 → -1 ≤ x0 ∧ x0 ≤ 0) ∧ (label = 1 → 0 ≤ x0 ∧ x0 ≤ 1))) ∧
    (∀ s ∈ regStrategies, ∀ x y g1,
        generate_reg_point s g = .ok ((x, y), g1) →
        (∀ xv ∈ x, ∃ m : ℤ, xv = (m : ℚ) / 10 ^ 3) ∧
        ∃ m : ℤ, y = (m : ℚ) / 10 ^ 3) := by
  obtain ⟨v, p⟩ := g
  constructor
  · intro hwf s hs x label g1 h
    have hwv : ∀ n, 0 ≤ v n ∧ v n < 1 := hwf
    simp only [clfStrategies, List.mem_cons, List.not_mem_nil, or_false] at hs
    rcases hs with rfl | rfl | rfl | rfl | rfl | rfl | rfl | rfl
    · -- halfs
      rw [clf_halfs_eq] at h
      cases h
      constructor
      · intro xv hxv
        simp only [List.mem_cons, List.not_mem_nil, or_false] at hxv
        rcases hxv with rfl | rfl
        · have hb := hwv (p + 1)
          refine ⟨?_, pyround_eq_int_div _ 2⟩
          apply pyround_in_unit 2 <;> split_ifs <;> linarith [hb.1, hb.2]
        · have hb := hwv (p + 2)
          exact ⟨pyround_in_unit 2 (by linarith [hb.1]) (by linarith [hb.2]),
            pyround_eq_int_div _ 2⟩
      · intro _
        refine ⟨_, _, rfl, ?_, ?_⟩
        · intro hl0
          rw [hl0, if_pos (rfl : (0 : ℤ) = 0)]
          have hb := hwv (p + 1)
          exact pyround_in_neg 2 (by linarith [hb.2]) (by linarith [hb.1])
        · intro hl1
          rw [hl1, if_neg (by omega : ¬(1 : ℤ) = 0)]
          have hb := hwv (p + 1)
          exact pyround_in_01 2 hb.1 (by linarith [hb.2])
    · -- quarters
      rw [clf_quarters_eq] at h
      cases h
      refine ⟨?_, fun hc => absurd hc (by decide)⟩
      intro xv hxv
      simp only [List.mem_cons, List.not_mem_nil, or_false] at hxv
      rcases hxv with rfl | rfl
      · have hb := hwv p
        exact ⟨pyround_in_unit 2 (by linarith [hb.1]) (by linarith [hb.2]),
          pyround_eq_int_div _ 2⟩
      · have hb := hwv (p + 1)
        exact ⟨pyround_in_unit 2 (by linarith [hb.1]) (by linarith [hb.2]),
          pyround_eq_int_div _ 2⟩
    · -- diagonal
      rw [clf_diagonal_eq] at h
      cases h
      refine ⟨?_, fun hc => absurd hc (by decide)⟩
      intro xv hxv
      simp only [List.mem_cons, List.not_mem_nil, or_false] at hxv
      rcases hxv with rfl | rfl
      · have hb := hwv p
        exact ⟨pyround_in_unit 2 (by linarith [hb.1]) (by linarith [hb.2]),
          pyround_eq_int_div _ 2⟩
      · have hb := hwv (p + 1)
        exact ⟨pyround_in_unit 2 (by linarith [hb.1]) (by linarith [hb.2]),
          pyround_eq_int_div _ 2⟩
    · -- circle
      rw [clf_circle_eq] at h
      cases h
      refine ⟨?_, fun hc => absurd hc (by decide)⟩
      intro xv hxv
      simp only [List.mem_cons, List.not_mem_nil, or_false] at hxv
      rcases hxv with rfl | rfl
      · have hb := hwv p
        exact ⟨pyround_in_unit 2 (by linarith [hb.1]) (by linarith [hb.2]),
          pyround_eq_int_div _ 2⟩
      · have hb := hwv (p + 1)
        exact ⟨pyround_in_unit 2 (by linarith [hb.1]) (by linarith [hb.2]),
          pyround_eq_int_div _ 2⟩
    · -- ellipse
      rw [clf_ellipse_eq] at h
      cases h
      refine ⟨?_, fun hc => absurd hc (by decide)⟩
      intro xv hxv
      simp only [List.mem_cons, List.not_mem_nil, or_false] at hxv
      rcases hxv with rfl | rfl
      · have hb := hwv p
        exact ⟨pyround_in_unit 2 (by linarith [hb.1]) (by linarith [hb.2]),
          pyround_eq_int_div _ 2⟩
      · have hb := hwv (p + 1)
        exact ⟨pyround_in_unit 2 (by linarith [hb.1]) (by linarith [hb.2]),
          pyround_eq_int_div _ 2⟩
    · -- circles
      rw [clf_circles_eq] at h
      cases h
      refine ⟨?_, fun hc => absurd hc (by decide)⟩
      intro xv hxv
      simp only [List.mem_cons, List.not_mem_nil, or_false] at hxv
      rcases hxv with rfl | rfl
      · have hb := hwv p
        exact ⟨pyround_in_unit 2 (by linarith [hb.1]) (by linarith [hb.2]),
          pyround_eq_int_div _ 2⟩
      · have hb := hwv (p + 1)
        exact ⟨pyround_in_unit 2 (by linarith [hb.1]) (by linarith [hb.2]),
          pyround_eq_int_div _ 2⟩
    · -- shifteddiagonal
      rw [clf_shifteddiagonal_eq] at h
      cases h
      refine ⟨?_, fun hc => absurd hc (by decide)⟩
      intro xv hxv
      simp only [List.mem_cons, List.not_mem_nil, or_false] at hxv
      rcases hxv with rfl | rfl
      · have hb := hwv p
        exact ⟨pyround_in_unit 2 (by linarith [hb.1]) (by linarith [hb.2]),
          pyround_eq_int_div _ 2⟩
      · have hb := hwv (p + 1)
        exact ⟨pyround_in_unit 2 (by linarith [hb.1]) (by linarith [hb.2]),
          pyround_eq_int_div _ 2⟩
    · -- bernoulli
      rw [clf_bernoulli_eq] at h
      cases h
      refine ⟨?_, fun hc => absurd hc (by decide)⟩
      intro xv hxv
      simp only [List.mem_cons, List.not_mem_nil, or_false] at hxv
      rcases hxv with rfl | rfl | rfl | rfl | rfl <;>
        refine ⟨?_, pyround_eq_int_div _ 2⟩ <;>
        rw [pyround_intCast] <;> split_ifs <;> norm_num
  · intro s hs x y g1 h
    simp only [regStrategies, List.mem_cons, List.not_mem_nil, or_false] at hs
    rcases hs with rfl | rfl | rfl | rfl | rfl | rfl | rfl
    · rw [reg_linear_eq] at h
      cases h
      refine ⟨?_, pyround_eq_int_div _ 3⟩
      intro xv hxv
      simp only [List.mem_cons, List.not_mem_nil, or_false] at hxv
      rcases hxv with rfl
      exact pyround_eq_int_div _ 3
    · rw [reg_twodimlinear_eq] at h
      cases h
      refine ⟨?_, pyround_eq_int_div _ 3⟩
      intro xv hxv
      simp only [List.mem_cons, List.not_mem_nil, or_false] at hxv
      rcases hxv with rfl | rfl <;> exact pyround_eq_int_div _ 3
    · rw [reg_multidimlinear_eq] at h
      cases h
      refine ⟨?_, pyround_eq_int_div _ 3⟩
      intro xv hxv
      simp only [List.mem_cons, List.not_mem_nil, or_false] at hxv
      rcases hxv with rfl | rfl | rfl | rfl <;> exact pyround_eq_int_div _ 3
    · rw [reg_quadratic_eq] at h
      cases h
      refine ⟨?_, pyround_eq_int_div _ 3⟩
      intro xv hxv
      simp only [List.mem_cons, List.not_mem_nil, or_false] at hxv
      rcases hxv with rfl
      exact pyround_eq_int_div _ 3
    · rw [reg_twodimquadratic_eq] at h
      cases h
      refine ⟨?_, pyround_eq_int_div _ 3⟩
      intro xv hxv
      simp only [List.mem_cons, List.not_mem_nil, or_false] at hxv
      rcases hxv with rfl | rfl <;> exact pyround_eq_int_div _ 3
    · rw [reg_cubic_eq] at h
      cases h
      refine ⟨?_, pyround_eq_int_div _ 3⟩
      intro xv hxv
      simp only [List.mem_cons, List.not_mem_nil, or_false] at hxv
      rcases hxv with rfl
      exact pyround_eq_int_div _ 3
    · rw [reg_twodimcubic_eq] at h
      cases h
      refine ⟨?_, pyround_eq_int_div _ 3⟩
      intro xv hxv
      simp only [List.mem_cons, List.not_mem_nil, or_false] at hxv
      rcases hxv with rfl | rfl <;> exact pyround_eq_int_div _ 3

/-- Witness for C9: the classification conjunct discharged at the constant
well-formed stream, the regression conjunct at the same stream with no
hypothesis at all. -/
theorem C9_witness :
    RNG.wf ⟨fun _ => 0, 0⟩ ∧
    ((∀ s ∈ clfStrategies, ∀ x label g1,
        generate_clf_point s ⟨fun _ => 0, 0⟩ = .ok ((x, label), g1) →
        (∀ xv ∈ x, (-1 ≤ xv ∧ xv ≤ 1) ∧ ∃ m : ℤ, xv = (m : ℚ) / 10 ^ 2) ∧
        (s = "halfs" → ∃ x0 x1, x = [x0, x1] ∧
          (label = 0 → -1 ≤ x0 ∧ x0 ≤ 0) ∧ (label = 1 → 0 ≤ x0 ∧ x0 ≤ 1))) ∧
    (∀ s ∈ regStrategies, ∀ x y g1,
        generate_reg_point s ⟨fun _ => 0, 0⟩ = .ok ((x, y), g1) →
        (∀ xv ∈ x, ∃ m : ℤ, xv = (m : ℚ) / 10 ^ 3) ∧
        ∃ m : ℤ, y = (m : ℚ) / 10 ^ 3)) :=
  ⟨fun _ => ⟨le_refl 0, by norm_num⟩,
   (C9_ranges_and_rounding ⟨fun _ => 0, 0⟩).1 (fun _ => ⟨le_refl 0, by norm_num⟩),
   (C9_ranges_and_rounding ⟨fun _ => 0, 0⟩).2⟩

/-- C5 counterexample: for the `linear` strategy with the Gaussian draw 0,
the produced sample ([0], -0.999) of an explicit stream violates
`target = 2 x - 1` on the yielded (rounded) feature: the label law holds for
the draw before rounding, not for the written sample. -/
theorem C5_counterexample :
    nearLinearRNG.vals (nearLinearRNG.pos + 1) = 0 ∧
    regOut "linear" nearLinearRNG = some ([0], -999 / 1000) ∧
    ¬ ((-999 / 1000 : ℚ) = 2 * 0 - 1) := by
  refine ⟨by norm_num [nearLinearRNG], ?_, by norm_num⟩
  show regOut "linear" ⟨fun n => if n = 0 then 5002 / 10000 else 0, 0⟩ =
    some ([0], -999 / 1000)
  rw [regOut, reg_linear_eq]
  simp only [Except.toOption, Option.map]
  norm_num [pyround, rndHalfEven, ratFloor_eq_floor]

/-- C5 (amended): for `linear` with the Gaussian draw 0, the feature before
rounding `u = 2 r - 1` satisfies the law exactly: the yielded pair is
`(round(u, 3), round(2 u - 1, 3))`, so the written target equals `2 x - 1`
only up to the rounding error, bounded by `3 / 2000`. -/
theorem C5_linear_exact_before_rounding (g : RNG) (x : List ℚ) (y : ℚ)
    (g1 : RNG) (hnoise : g.vals (g.pos + 1) = 0)
    (h : generate_reg_point "linear" g = .ok ((x, y), g1)) :
    x = [pyround (2 * g.vals g.pos - 1) 3] ∧
    y = pyround (2 * (2 * g.vals g.pos - 1) - 1) 3 ∧
    ∀ x0 ∈ x, |y - (2 * x0 - 1)| ≤ 3 / 2000 := by
  obtain ⟨v, p⟩ := g
  exact linear_pull_zero_noise v p x y g1 hnoise h

/-- Witness for the amended C5 at the constant stream. -/
theorem C5_witness :
    (0 : ℚ) = 0 ∧
    ([pyround (2 * (0 : ℚ) - 1) 3] = [pyround (2 * (0 : ℚ) - 1) 3] ∧
     pyround (2 * (2 * (0 : ℚ) - 1) - 1 + (0 + 0.3 * (0 : ℚ))) 3 =
       pyround (2 * (2 * (0 : ℚ) - 1) - 1) 3 ∧
     ∀ x0 ∈ [pyround (2 * (0 : ℚ) - 1) 3],
       |pyround (2 * (2 * (0 : ℚ) - 1) - 1 + (0 + 0.3 * (0 : ℚ))) 3 -
         (2 * x0 - 1)| ≤ 3 / 2000) :=
  ⟨rfl, C5_linear_exact_before_rounding ⟨fun _ => 0, 0⟩ _ _ _ rfl
    (reg_linear_eq (fun _ => 0) 0)⟩

/-- C6 counterexample: a `circle` pull of an explicit stream yields the
rounded sample ([0.5, 0.06], 1) whose distance to the origin is not below
0.5: the claimed label rule fails on the produced (rounded) features. -/
theorem C6_counterexample :
    clfOut "circle" nearCircleRNG = some ([1 / 2, 3 / 50], 1) ∧
    ¬ Real.sqrt (((1 / 2 : ℚ) : ℝ) ^ 2 + ((3 / 50 : ℚ) : ℝ) ^ 2) < 0.5 := by
  constructor
  · show clfOut "circle" ⟨fun n => if n = 0 then 748 / 1000 else 53 / 100, 0⟩ =
      some ([1 / 2, 3 / 50], 1)
    rw [clfOut, clf_circle_eq]
    simp only [Except.toOption, Option.map]
    norm_num [pyround, rndHalfEven, ratFloor_eq_floor, sqrtlt]
  · rw [not_lt]
    have h05 : (0.5 : ℝ) = 1 / 2 := by norm_num
    rw [h05]
    rw [show (((1 / 2 : ℚ) : ℝ) ^ 2 + ((3 / 50 : ℚ) : ℝ) ^ 2) =
      ((317 : ℝ) / 1250) from by push_cast; norm_num]
    rw [Real.le_sqrt (by norm_num) (by norm_num)]
    norm_num

/-- C6 (amended): for `circle`, the label is 1 exactly when the coordinates
as drawn, before the 2-digit rounding, lie strictly inside the circle of
radius 0.5, the boundary getting label 0; the yielded features are those
coordinates rounded. -/
theorem C6_circle_label_before_rounding (g : RNG) (x : List ℚ) (label : ℤ)
    (g1 : RNG)
    (h : generate_clf_point "circle" g = .ok ((x, label), g1)) :
    x = [pyround (2 * g.vals g.pos - 1) 2,
         pyround (2 * g.vals (g.pos + 1) - 1) 2] ∧
    (label = 1 ↔
      Real.sqrt (((2 * g.vals g.pos - 1 : ℚ) : ℝ) ^ 2 +
        ((2 * g.vals (g.pos + 1) - 1 : ℚ) : ℝ) ^ 2) < 0.5) ∧
    (Real.sqrt (((2 * g.vals g.pos - 1 : ℚ) : ℝ) ^ 2 +
        ((2 * g.vals (g.pos + 1) - 1 : ℚ) : ℝ) ^ 2) = 0.5 → label = 0) := by
  obtain ⟨v, p⟩ := g
  exact circle_pull_label v p x label g1 h

/-- Witness for the amended C6 at the constant stream. -/
theorem C6_witness :
    [pyround (2 * (0 : ℚ) - 1) 2, pyround (2 * (0 : ℚ) - 1) 2] =
      [pyround (2 * (0 : ℚ) - 1) 2, pyround (2 * (0 : ℚ) - 1) 2] ∧
    ((if sqrtlt ((2 * (0 : ℚ) - 1) ^ 2 + (2 * (0 : ℚ) - 1) ^ 2) 0.5
        then (1 : ℤ) else 0) = 1 ↔
      Real.sqrt (((2 * (0 : ℚ) - 1 : ℚ) : ℝ) ^ 2 +
        ((2 * (0 : ℚ) - 1 : ℚ) : ℝ) ^ 2) < 0.5) ∧
    (Real.sqrt (((2 * (0 : ℚ) - 1 : ℚ) : ℝ) ^ 2 +
        ((2 * (0 : ℚ) - 1 : ℚ) : ℝ) ^ 2) = 0.5 →
      (if sqrtlt ((2 * (0 : ℚ) - 1) ^ 2 + (2 * (0 : ℚ) - 1) ^ 2) 0.5
        then (1 : ℤ) else 0) = 0) :=
  C6_circle_label_before_rounding ⟨fun _ => 0, 0⟩ _ _ _
    (clf_circle_eq (fun _ => 0) 0)

/-- C2 counterexample: for strategy `circle` the train split leaves the
stream at position 2002, while drawing exactly the 1000 written samples
would leave it at 2000: one extra sample is pulled for the Example line of
each split. -/
theorem C2_counterexample :
    ((clfSplit "circle" zeroRNG).toOption.map (fun r => r.2.pos) = some 2002) ∧
    ((pulls (generate_clf_point "circle") nInstances zeroRNG).toOption.map
      (fun r => r.2.pos) = some 2000) ∧
    (2002 : ℕ) ≠ 2000 := by
  refine ⟨?_, ?_, by decide⟩
  · show (clfSplit "circle" ⟨fun _ => (0 : ℚ), 0⟩).toOption.map
      (fun r => r.2.pos) = some 2002
    rw [circle_split]
    rfl
  · show (pulls (generate_clf_point "circle") nInstances
      ⟨fun _ => (0 : ℚ), 0⟩).toOption.map (fun r => r.2.pos) = some 2000
    rw [circle_pulls]
    rfl

/-- C2 (amended): for every supported strategy and each split, the file
holds the fixed header and exactly 1000 rows indexed 0..999, but the driver
pulls 1001 samples for the split: the Example print consumes one sample
before the write loop. -/
theorem C2_split_pulls_1001 (s : String) (g : RNG) :
    (s ∈ clfStrategies → ∃ f g2 l, clfSplit s g = .ok (f, g2) ∧
      pulls (generate_clf_point s) (nInstances + 1) g = .ok (l, g2) ∧
      l.length = nInstances + 1 ∧ f.header = "Index X Y Type" ∧
      f.rows.length = nInstances ∧ f.rows.map Prod.fst = List.range nInstances) ∧
    (s ∈ regStrategies → ∃ f g2 l, regSplit s g = .ok (f, g2) ∧
      pulls (generate_reg_point s) (nInstances + 1) g = .ok (l, g2) ∧
      l.length = nInstances + 1 ∧ f.header = "Index X Y" ∧
      f.rows.length = nInstances ∧ f.rows.map Prod.fst = List.range nInstances) := by
  constructor
  · intro hs
    obtain ⟨f, g2, l, h1, h2, h3, h4, -, h6, h7⟩ := clfSplit_supported s hs g
    exact ⟨f, g2, l, h1, h2, h3, h4, h6, h7⟩
  · intro hs
    obtain ⟨f, g2, l, h1, h2, h3, h4, -, h6, h7⟩ := regSplit_supported s hs g
    exact ⟨f, g2, l, h1, h2, h3, h4, h6, h7⟩

/-- Witness for the amended C2 at `circle` and `linear`. -/
theorem C2_witness :
    (∃ f g2 l, clfSplit "circle" zeroRNG = .ok (f, g2) ∧
      pulls (generate_clf_point "circle") (nInstances + 1) zeroRNG = .ok (l, g2) ∧
      l.length = nInstances + 1 ∧ f.header = "Index X Y Type" ∧
      f.rows.length = nInstances ∧ f.rows.map Prod.fst = List.range nInstances) ∧
    (∃ f g2 l, regSplit "linear" zeroRNG = .ok (f, g2) ∧
      pulls (generate_reg_point "linear") (nInstances + 1) zeroRNG = .ok (l, g2) ∧
      l.length = nInstances + 1 ∧ f.header = "Index X Y" ∧
      f.rows.length = nInstances ∧ f.rows.map Prod.fst = List.range nInstances) :=
  ⟨(C2_split_pulls_1001 "circle" zeroRNG).1 (by decide),
   (C2_split_pulls_1001 "linear" zeroRNG).2 (by decide)⟩

/-- C1 counterexample: with strategy `circle` on an explicit well-formed
stream, the two files of one run differ already in their first row
(([-1, -1], 0) against ([0, 0], 1)): the train and test contents are not
identical. -/
theorem C1_counterexample :
    (runClf "circle" twoPhaseRNG).1.map (fun pr => pr.2.rows.head?) =
      [some (0, ([-1, -1], 0)), some (0, ([0, 0], 1))] ∧
    (some ((0 : ℕ), (([-1, -1] : List ℚ), (0 : ℤ))) ≠ some (0, ([0, 0], 1))) := by
  constructor
  · show (runClf "circle"
        ⟨fun n => if n < 1000 then (0 : ℚ) else 1 / 2, 0⟩).1.map
      (fun pr => pr.2.rows.head?) =
      [some (0, ([-1, -1], 0)), some (0, ([0, 0], 1))]
    have e1 := circle_split (fun n => if n < 1000 then (0 : ℚ) else 1 / 2) 0
    have e2 := circle_split (fun n => if n < 1000 then (0 : ℚ) else 1 / 2)
      (0 + 2002)
    simp only [runClf, e1, e2, List.map_cons, List.map_nil]
    rw [head_zip_range_map _ nInstances (by norm_num [nInstances]),
      head_zip_range_map _ nInstances (by norm_num [nInstances])]
    have hs1 : circleSample (fun n => if n < 1000 then (0 : ℚ) else 1 / 2)
        (0 + 2 + 2 * 0) = ([-1, -1], 0) := by
      norm_num [circleSample, sqrtlt, pyround, rndHalfEven, ratFloor_eq_floor]
    have hs2 : circleSample (fun n => if n < 1000 then (0 : ℚ) else 1 / 2)
        (0 + 2002 + 2 + 2 * 0) = ([0, 0], 1) := by
      norm_num [circleSample, sqrtlt, pyround, rndHalfEven, ratFloor_eq_floor]
    rw [hs1, hs2]
  · intro hcontra
    simp only [Option.some.injEq, Prod.mk.injEq, List.cons.injEq] at hcontra
    norm_num at hcontra

/-- C1 (amended): for every supported strategy one run produces exactly the
train and the test file with equal headers, but the test split is generated
from the stream state the train split left behind, not from a reseeded
stream: the two 1000-row contents come from disjoint stream segments and
are not identical in general. -/
theorem C1_sequential_splits (s : String) (g : RNG) :
    (s ∈ clfStrategies → ∃ f1 g1 f2 g2,
      clfSplit s g = .ok (f1, g1) ∧ clfSplit s g1 = .ok (f2, g2) ∧
      runClf s g = ([("clf_train.csv", f1), ("clf_test.csv", f2)], none) ∧
      f1.header = f2.header) ∧
    (s ∈ regStrategies → ∃ f1 g1 f2 g2,
      regSplit s g = .ok (f1, g1) ∧ regSplit s g1 = .ok (f2, g2) ∧
      runReg s g = ([("reg_train.csv", f1), ("reg_test.csv", f2)], none) ∧
      f1.header = f2.header) := by
  constructor
  · intro hs
    obtain ⟨f1, g1, l1, h1, -, -, hh1, -⟩ := clfSplit_supported s hs g
    obtain ⟨f2, g2, l2, h2, -, -, hh2, -⟩ := clfSplit_supported s hs g1
    exact ⟨f1, g1, f2, g2, h1, h2, by simp only [runClf, h1, h2],
      by rw [hh1, hh2]⟩
  · intro hs
    obtain ⟨f1, g1, l1, h1, -, -, hh1, -⟩ := regSplit_supported s hs g
    obtain ⟨f2, g2, l2, h2, -, -, hh2, -⟩ := regSplit_supported s hs g1
    exact ⟨f1, g1, f2, g2, h1, h2, by simp only [runReg, h1, h2],
      by rw [hh1, hh2]⟩

/-- Witness for the amended C1 at `circle` and `linear`. -/
theorem C1_witness :
    (∃ f1 g1 f2 g2,
      clfSplit "circle" zeroRNG = .ok (f1, g1) ∧
      clfSplit "circle" g1 = .ok (f2, g2) ∧
      runClf "circle" zeroRNG =
        ([("clf_train.csv", f1), ("clf_test.csv", f2)], none) ∧
      f1.header = f2.header) ∧
    (∃ f1 g1 f2 g2,
      regSplit "linear" zeroRNG = .ok (f1, g1) ∧
      regSplit "linear" g1 = .ok (f2, g2) ∧
      runReg "linear" zeroRNG =
        ([("reg_train.csv", f1), ("reg_test.csv", f2)], none) ∧
      f1.header = f2.header) :=
  ⟨(C1_sequential_splits "circle" zeroRNG).1 (by decide),
   (C1_sequential_splits "linear" zeroRNG).2 (by decide)⟩

end Claims

end CreateData
